import Mathlib

/-!
Verification development for the vote-ingestion-and-live-aggregation core of
`src/server/server.js` (an audience-polling backend).

The JavaScript source is shallowly embedded: the SQLite `votes` table becomes a
list of rows in rowid (storage) order, the prepared statements become pure
functions on that list, JavaScript objects used as counters become
insertion-ordered association lists, `Object.entries` ordering (array-index
keys first, ascending, then string keys in insertion order) is modelled
explicitly, and `JSON.parse` / `JSON.stringify` / `parseInt` are modelled by
executable functions over the JSON grammar.
-/

/-- The apostrophe character, used inside several poll option labels. -/
def apos : String := String.singleton (Char.ofNat 39)

/-- Left brace character (written via its code point). -/
def braceL : Char := Char.ofNat 123

/-- Right brace character (written via its code point). -/
def braceR : Char := Char.ofNat 125

/-! ## Vote Store: the SQLite `votes` table

One row per `INSERT`; `ON CONFLICT(poll_id, voter_id) DO UPDATE` rewrites the
existing row in place (the rowid, hence the position in storage order, is
unchanged). `created_at` is modelled as an abstract Nat timestamp. -/

/-- A row of the `votes` table (storage order is list order = rowid order). -/
structure VoteRow where
  poll_id : String
  voter_id : String
  value : String
  created_at : Nat
deriving DecidableEq, Repr

/-- The `votes` table contents, in storage (rowid) order. -/
abbrev VoteStore := List VoteRow

/-- The `DO UPDATE SET value = @value, created_at = CURRENT_TIMESTAMP` action
applied to the row with the conflicting key (identity on other rows). -/
def updRow (pid vid v : String) (now : Nat) (r : VoteRow) : VoteRow :=
  if r.poll_id == pid && r.voter_id == vid then
    { r with value := v, created_at := now }
  else r

/-- The prepared `upsertVote` statement:
`INSERT ... ON CONFLICT(poll_id, voter_id) DO UPDATE SET value, created_at`.
If a row with the key exists it is updated in place (the rowid keeps its
position); otherwise a fresh row is appended. -/
def upsertVote (s : VoteStore) (pid vid v : String) (now : Nat) : VoteStore :=
  if s.any (fun r => r.poll_id == pid && r.voter_id == vid) then
    s.map (updRow pid vid v now)
  else
    s ++ [{ poll_id := pid, voter_id := vid, value := v, created_at := now }]

/-- Strict lexicographic order on code points: the order in which SQLite's
BINARY collation (a memcmp of the UTF-8 bytes) ranks TEXT values, since UTF-8
is order-preserving on code points. -/
def charsLt : List Char → List Char → Bool
  | [], [] => false
  | [], _ :: _ => true
  | _ :: _, [] => false
  | a :: as, b :: bs =>
    if a.toNat < b.toNat then true
    else if b.toNat < a.toNat then false
    else charsLt as bs

/-- Does row `a` sort no later than row `b` in the `(poll_id, voter_id)`
index order, within a fixed `poll_id`? -/
def voterLeB (a b : VoteRow) : Bool :=
  charsLt a.voter_id.data b.voter_id.data || a.voter_id == b.voter_id

/-- Insert a row into a list sorted by ascending voter id. -/
def insertByVoter (r : VoteRow) : List VoteRow → List VoteRow
  | [] => [r]
  | f :: fs => if voterLeB r f then r :: f :: fs else f :: insertByVoter r fs

/-- Sort rows by ascending voter id (insertion sort; voter ids are unique
within one poll, so ties never arise). -/
def sortByVoter : List VoteRow → List VoteRow
  | [] => []
  | r :: rs => insertByVoter r (sortByVoter rs)

/-- The prepared `getVotes` statement: `SELECT value FROM votes WHERE poll_id = ?`.
SQLite answers this query through the `UNIQUE(poll_id, voter_id)` automatic
index (plan: `SEARCH votes USING INDEX sqlite_autoindex_votes_1 (poll_id=?)`),
so the rows arrive sorted by ascending voter id under BINARY collation — not
in rowid (insertion) order. -/
def getVotes (s : VoteStore) (pid : String) : List String :=
  (sortByVoter (s.filter (fun r => r.poll_id == pid))).map (fun r => r.value)

/-- The prepared `clearAll` statement: `DELETE FROM votes`. -/
def clearAll (_ : VoteStore) : VoteStore := []

/-! ## Poll catalog -/

/-- A poll definition from the static `POLLS` object. -/
structure Poll where
  question : String
  type : String
  options : List String
deriving DecidableEq, Repr

def poll1 : Poll :=
  { question := "Have you used AI for work in the past month?"
    type := "mc"
    options := ["Yes, regularly", "Yes, a few times",
                "No, but I" ++ apos ++ "m curious", "What" ++ apos ++ "s AI?"] }

def poll2 : Poll :=
  { question := "What GS/production task would you want AI to help with?"
    type := "open"
    options := [] }

def poll3 : Poll :=
  { question := "How confident are you in using AI for work?"
    type := "likert"
    options := ["1 — Not at all", "2 — A little nervous", "3 — Somewhat confident",
                "4 — Pretty confident", "5 — I" ++ apos ++ "m already an AI pro"] }

def poll4 : Poll :=
  { question := "What AI tools have you heard of?"
    type := "multi"
    options := ["ChatGPT", "Microsoft Copilot", "Google Gemini", "Claude",
                "ElevenLabs", "Midjourney / DALL-E", "None of these"] }

def poll5 : Poll :=
  { question := "What" ++ apos ++ "s your biggest concern about using AI?"
    type := "open"
    options := [] }

def poll6 : Poll :=
  { question := "How many of you have clients that use AI?"
    type := "mc"
    options := ["Yes, several clients", "Yes, a few", "Not that I know of",
                "I" ++ apos ++ "m not sure"] }

/-- The static `POLLS` object, as an (insertion-ordered) association list. -/
def POLLS : List (String × Poll) :=
  [("1", poll1), ("2", poll2), ("3", poll3), ("4", poll4), ("5", poll5), ("6", poll6)]

/-- Property names inherited from `Object.prototype`.  In JavaScript,
`POLLS[k]` for these `k` yields the inherited member (a truthy function or
object), even though `k` is not a key of the catalog. -/
def objectProtoKeys : List String :=
  ["constructor", "hasOwnProperty", "isPrototypeOf", "propertyIsEnumerable",
   "toLocaleString", "toString", "valueOf", "__proto__",
   "__defineGetter__", "__defineSetter__", "__lookupGetter__", "__lookupSetter__"]

/-- The possible results of the property read `POLLS[pollId]`. -/
inductive PollVal where
  /-- An own entry of the catalog. -/
  | obj (p : Poll)
  /-- A member inherited from `Object.prototype` (truthy; reading `.type` and
  `.options` on it yields `undefined`). -/
  | protoFn
  /-- Absent: the read yields `undefined` (falsy). -/
  | absent
deriving DecidableEq, Repr

/-- The property read `POLLS[pollId]` (own entries shadow the prototype). -/
def pollsGet (pid : String) : PollVal :=
  match POLLS.lookup pid with
  | some p => .obj p
  | none => if pid ∈ objectProtoKeys then .protoFn else .absent

/-- Truthiness of `POLLS[pollId]` (the `!POLLS[poll]` validation test). -/
def pollTruthy (pid : String) : Bool :=
  match pollsGet pid with
  | .absent => false
  | _ => true

/-! ## JavaScript object model for the `counts` accumulators

A plain JS object used as a counter is an insertion-ordered association list
with unique keys.  Assigning to an existing key updates it in place; assigning
to a fresh key appends it. -/

abbrev JsObj := List (String × Nat)

/-- Does the object have the key (`k in counts`, or `counts[k]` being defined)? -/
def objHas (m : JsObj) (k : String) : Bool :=
  (m.lookup k).isSome

/-- `counts[k] || 0`: the stored value, or 0 when the key is absent. -/
def objGet (m : JsObj) (k : String) : Nat :=
  match m.lookup k with
  | some v => v
  | none => 0

/-- The in-place rewrite of the entry at key `k` (identity on other entries). -/
def updFn (k : String) (v : Nat) (e : String × Nat) : String × Nat :=
  if e.1 == k then (k, v) else e

/-- `counts[k] = v`: update in place when the key exists, else append. -/
def objSet (m : JsObj) (k : String) (v : Nat) : JsObj :=
  if objHas m k then
    m.map (updFn k v)
  else
    m ++ [(k, v)]

/-- `counts[k] = (counts[k] || 0) + 1` (also the behaviour of `counts[k]++`
when the key is present). -/
def objIncr (m : JsObj) (k : String) : JsObj :=
  objSet m k (objGet m k + 1)

/-- `poll.options.forEach(o => counts[o] = 0)`. -/
def initCounts (options : List String) : JsObj :=
  options.foldl (fun m o => objSet m o 0) []

/-- The numeric value of an all-digit string (structural counterpart of
`String.toNat?`, kept kernel-reducible). -/
def strToNatQ (s : String) : Option Nat :=
  if s.data ≠ [] ∧ s.data.all Char.isDigit then
    some (s.data.foldl (fun a c => a * 10 + (c.toNat - 48)) 0)
  else none

/-- Is `s` the canonical string form of an array index (an integer in
`[0, 2^32 - 2]` with no leading zeros)?  Such property keys are enumerated
first, in ascending numeric order, by `Object.entries`. -/
def isArrayIdx (s : String) : Bool :=
  match strToNatQ s with
  | some n => decide (n ≤ 4294967294) && (toString n == s)
  | none => false

/-- Numeric value of an array-index key (0 for others; only used for sorting
keys that satisfy `isArrayIdx`). -/
def arrIdxVal (s : String) : Nat :=
  match strToNatQ s with
  | some n => n
  | none => 0

/-- Insert an entry into a list sorted by ascending array-index value. -/
def insertByIdx (e : String × Nat) : List (String × Nat) → List (String × Nat)
  | [] => [e]
  | f :: fs => if arrIdxVal e.1 ≤ arrIdxVal f.1 then e :: f :: fs else f :: insertByIdx e fs

/-- Sort entries by ascending array-index value (insertion sort). -/
def sortByIdx : List (String × Nat) → List (String × Nat)
  | [] => []
  | e :: es => insertByIdx e (sortByIdx es)

/-- `Object.entries(counts)`: array-index keys first in ascending numeric
order, then the remaining keys in insertion order. -/
def jsEntries (m : JsObj) : List (String × Nat) :=
  sortByIdx (m.filter (fun e => isArrayIdx e.1)) ++ m.filter (fun e => !isArrayIdx e.1)

/-! ## `JSON.parse`

A total recursive-descent parser for the JSON grammar, used by the
multi-select aggregation branch.  Numbers keep their source lexeme (their
numeric value is never needed below: a number can only influence a count
through its property-key coercion, and no catalog option label is a possible
number formatting).  Escaped surrogate pairs are combined; a lone surrogate
is represented as U+FFFD (such strings cannot equal any catalog label, which
is all the development relies on). -/

inductive Json where
  | jnull
  | jbool (b : Bool)
  | jnum (lexeme : String)
  | jstr (s : String)
  | jarr (elems : List Json)
  | jobj (fields : List (String × Json))
deriving Repr

/-- JSON insignificant whitespace. -/
def jsonWs (c : Char) : Bool :=
  c == ' ' || c == '\t' || c == '\n' || c == '\r'

def skipWs : List Char → List Char
  | c :: cs => if jsonWs c then skipWs cs else c :: cs
  | [] => []

def hexVal (c : Char) : Option Nat :=
  if '0' ≤ c ∧ c ≤ '9' then some (c.toNat - 48)
  else if 'a' ≤ c ∧ c ≤ 'f' then some (c.toNat - 87)
  else if 'A' ≤ c ∧ c ≤ 'F' then some (c.toNat - 55)
  else none

/-- Four hex digits (the payload of a `\uXXXX` escape). -/
def hex4 : List Char → Option (Nat × List Char)
  | a :: b :: c :: d :: rest => do
    let va ← hexVal a
    let vb ← hexVal b
    let vc ← hexVal c
    let vd ← hexVal d
    some (((va * 16 + vb) * 16 + vc) * 16 + vd, rest)
  | _ => none

/-- Code point for a parsed `\uXXXX` unit; lone surrogates become U+FFFD. -/
def uChar (n : Nat) : Char :=
  if n < 0xd800 ∨ (0xdfff < n ∧ n < 1114112) then
    Char.ofNat n
  else
    Char.ofNat 0xfffd

/-- The body of a JSON string after the opening quote (`fuel` bounds the
number of consumed characters; it is always sufficient at the call site). -/
def parseJStr (fuel : Nat) (acc : List Char) (cs : List Char) : Option (String × List Char) :=
  match fuel with
  | 0 => none
  | fuel + 1 =>
    match cs with
    | [] => none
    | '"' :: rest => some (String.mk acc.reverse, rest)
    | '\\' :: rest =>
      match rest with
      | [] => none
      | e :: rest2 =>
        if e == '"' then parseJStr fuel ('"' :: acc) rest2
        else if e == '\\' then parseJStr fuel ('\\' :: acc) rest2
        else if e == '/' then parseJStr fuel ('/' :: acc) rest2
        else if e == 'b' then parseJStr fuel (Char.ofNat 8 :: acc) rest2
        else if e == 'f' then parseJStr fuel (Char.ofNat 12 :: acc) rest2
        else if e == 'n' then parseJStr fuel ('\n' :: acc) rest2
        else if e == 'r' then parseJStr fuel ('\r' :: acc) rest2
        else if e == 't' then parseJStr fuel ('\t' :: acc) rest2
        else if e == 'u' then
          match hex4 rest2 with
          | none => none
          | some (n, rest3) =>
            if 0xd800 ≤ n ∧ n ≤ 0xdbff then
              -- possible surrogate pair: look for an immediately following \uXXXX low surrogate
              match rest3 with
              | '\\' :: 'u' :: rest4 =>
                match hex4 rest4 with
                | some (lo, rest5) =>
                  if 0xdc00 ≤ lo ∧ lo ≤ 0xdfff then
                    parseJStr fuel (Char.ofNat (0x10000 + (n - 0xd800) * 0x400 + (lo - 0xdc00)) :: acc) rest5
                  else
                    parseJStr fuel (uChar lo :: uChar n :: acc) rest5
                | none => none
              | _ => parseJStr fuel (uChar n :: acc) rest3
            else
              parseJStr fuel (uChar n :: acc) rest3
        else none
    | c :: rest =>
      if c.toNat < 0x20 then none else parseJStr fuel (c :: acc) rest

/-- The optional exponent part of a JSON number; `pre` is the already-parsed
prefix of the lexeme. -/
def parseJExp (pre : List Char) (cs : List Char) : Option (String × List Char) :=
  match cs with
  | c :: rest =>
    if c == 'e' || c == 'E' then
      let (sgn, rest2) :=
        match rest with
        | s :: r2 => if s == '+' || s == '-' then ([s], r2) else ([], rest)
        | [] => ([], rest)
      let ds := rest2.takeWhile Char.isDigit
      if ds = [] then none
      else some (String.mk (pre ++ c :: (sgn ++ ds)), rest2.dropWhile Char.isDigit)
    else some (String.mk pre, cs)
  | [] => some (String.mk pre, cs)

/-- A JSON number starting at `cs`; returns its lexeme.  Follows the JSON
number grammar (`-?(0|[1-9][0-9]*)(\.[0-9]+)?([eE][+-]?[0-9]+)?`). -/
def parseJNum (cs : List Char) : Option (String × List Char) :=
  let (sgn, cs1) :=
    match cs with
    | '-' :: rest => (['-'], rest)
    | _ => (([] : List Char), cs)
  match cs1 with
  | [] => none
  | c :: rest =>
    if !c.isDigit then none
    else
      let (ip, cs2) :=
        if c == '0' then (['0'], rest)
        else (c :: rest.takeWhile Char.isDigit, rest.dropWhile Char.isDigit)
      match cs2 with
      | '.' :: rest2 =>
        let ds := rest2.takeWhile Char.isDigit
        if ds = [] then none
        else parseJExp (sgn ++ ip ++ '.' :: ds) (rest2.dropWhile Char.isDigit)
      | _ => parseJExp (sgn ++ ip) cs2

mutual

/-- A JSON value starting at `cs` (leading whitespace allowed). -/
def parseJVal (fuel : Nat) (cs : List Char) : Option (Json × List Char) :=
  match fuel with
  | 0 => none
  | fuel + 1 =>
    match skipWs cs with
    | 'n' :: 'u' :: 'l' :: 'l' :: rest => some (.jnull, rest)
    | 't' :: 'r' :: 'u' :: 'e' :: rest => some (.jbool true, rest)
    | 'f' :: 'a' :: 'l' :: 's' :: 'e' :: rest => some (.jbool false, rest)
    | '"' :: rest =>
      match parseJStr (rest.length + 1) [] rest with
      | some (s, rest2) => some (.jstr s, rest2)
      | none => none
    | '[' :: rest =>
      (match skipWs rest with
       | ']' :: rest2 => some (.jarr [], rest2)
       | _ =>
         match parseJElems fuel rest with
         | some (es, rest2) => some (.jarr es, rest2)
         | none => none)
    | c :: rest =>
      if c == braceL then
        (match skipWs rest with
         | c2 :: rest2 =>
           if c2 == braceR then some (.jobj [], rest2)
           else
             (match parseJFields fuel (c2 :: rest2) with
              | some (fs, rest3) => some (.jobj fs, rest3)
              | none => none)
         | [] => none)
      else if c == '-' || c.isDigit then
        (match parseJNum (c :: rest) with
         | some (lex, rest2) => some (.jnum lex, rest2)
         | none => none)
      else none
    | [] => none

/-- One-or-more comma-separated JSON array elements followed by `]`. -/
def parseJElems (fuel : Nat) (cs : List Char) : Option (List Json × List Char) :=
  match fuel with
  | 0 => none
  | fuel + 1 =>
    match parseJVal fuel cs with
    | none => none
    | some (v, rest) =>
      match skipWs rest with
      | ',' :: rest2 =>
        (match parseJElems fuel rest2 with
         | some (vs, rest3) => some (v :: vs, rest3)
         | none => none)
      | ']' :: rest2 => some ([v], rest2)
      | _ => none

/-- One-or-more comma-separated JSON object members followed by the closing
brace. -/
def parseJFields (fuel : Nat) (cs : List Char) : Option (List (String × Json) × List Char) :=
  match fuel with
  | 0 => none
  | fuel + 1 =>
    match skipWs cs with
    | '"' :: rest =>
      (match parseJStr (rest.length + 1) [] rest with
       | none => none
       | some (k, rest2) =>
         match skipWs rest2 with
         | ':' :: rest3 =>
           (match parseJVal fuel rest3 with
            | none => none
            | some (v, rest4) =>
              match skipWs rest4 with
              | ',' :: rest5 =>
                (match parseJFields fuel rest5 with
                 | some (fs, rest6) => some ((k, v) :: fs, rest6)
                 | none => none)
              | c :: rest5 =>
                if c == braceR then some ([(k, v)], rest5) else none
              | [] => none)
         | _ => none)
    | _ => none

end

/-- `JSON.parse(s)`: parse one value and require only whitespace after it. -/
def JSONparse (s : String) : Option Json :=
  match parseJVal (s.length + 1) s.data with
  | some (v, rest) => if skipWs rest = [] then some v else none
  | none => none

/-! ## ECMAScript ToString for property-key coercion

`counts[s]` coerces `s` to a string: strings are themselves, arrays join
their elements with commas (with `null` joined as the empty string), plain
objects become `[object Object]`.  A number is kept as its JSON lexeme: the
exact double formatting is immaterial here because a number key is made only
of digits, signs, dots and `e`, so it can never equal a declared option label
of this catalog (or `Other`), which is all the development depends on. -/

mutual

def jsElemStr : Json → String
  | .jnull => ""
  | .jbool true => "true"
  | .jbool false => "false"
  | .jnum lex => lex
  | .jstr s => s
  | .jarr xs => jsArrJoin xs
  | .jobj _ => "[object Object]"

def jsArrJoin : List Json → String
  | [] => ""
  | [x] => jsElemStr x
  | x :: xs => jsElemStr x ++ "," ++ jsArrJoin xs

end

/-- `String(v)` for a JSON-derived value (as a property key). -/
def jsToStr (v : Json) : String :=
  match v with
  | .jnull => "null"
  | _ => jsElemStr v

/-- One iteration of the multi-select vote loop:
`try { const selected = JSON.parse(r.value); selected.forEach(s => counts[s] = (counts[s]||0)+1); } catch {}`.
A value that does not parse, or parses to a non-array (whose `.forEach` call
throws), leaves the counts untouched. -/
def multiStep (m : JsObj) (v : String) : JsObj :=
  match JSONparse v with
  | some (.jarr es) => es.foldl (fun m2 e => objIncr m2 (jsToStr e)) m
  | _ => m

/-! ## `parseInt` and `toFixed(1)` -/

/-- Whitespace skipped by `parseInt` (the usual ECMAScript white-space and
line-terminator code points). -/
def jsWsChar (c : Char) : Bool :=
  c == ' ' || c == '\t' || c == '\n' || c == '\r' ||
  c.toNat == 0xb || c.toNat == 0xc || c.toNat == 0xa0 ||
  c.toNat == 0xfeff || c.toNat == 0x2028 || c.toNat == 0x2029

def hexDigitB (c : Char) : Bool :=
  c.isDigit || ('a' ≤ c && c ≤ 'f') || ('A' ≤ c && c ≤ 'F')

def hexDigitVal (c : Char) : Nat :=
  if c.isDigit then c.toNat - 48
  else if 'a' ≤ c ∧ c ≤ 'f' then c.toNat - 87
  else c.toNat - 55

/-- `parseInt(s)` (radix 10, or 16 after a `0x`/`0X` prefix): skip leading
whitespace, read an optional sign, take the longest digit prefix; `none`
models `NaN`.  The result is modelled as an exact integer (the source holds a
double, exact for results below `2^53`). -/
def parseIntJS (s : String) : Option Int :=
  let cs := s.data.dropWhile jsWsChar
  let sign : Int := match cs with | '-' :: _ => -1 | _ => 1
  let cs1 := match cs with
    | '-' :: rest => rest
    | '+' :: rest => rest
    | _ => cs
  match cs1 with
  | '0' :: x :: rest =>
    if x == 'x' || x == 'X' then
      let ds := rest.takeWhile hexDigitB
      if ds = [] then none
      else some (sign * Int.ofNat (ds.foldl (fun a c => a * 16 + hexDigitVal c) 0))
    else
      let ds := ('0' :: x :: rest).takeWhile Char.isDigit
      some (sign * Int.ofNat (ds.foldl (fun a c => a * 10 + (c.toNat - 48)) 0))
  | _ =>
    let ds := cs1.takeWhile Char.isDigit
    if ds = [] then none
    else some (sign * Int.ofNat (ds.foldl (fun a c => a * 10 + (c.toNat - 48)) 0))

/-- Models `(sum / n).toFixed(1)` for `n > 0`: the quotient rounded to one
decimal digit, ties away from zero, with a leading minus sign for a negative
quotient (including `-0.0`).  Modelled with exact rational arithmetic; the
source computes with IEEE-754 doubles, which agree except when `sum / n`
falls within one double ulp of a midpoint between two tenths. -/
def toFixed1 (sum : Int) (n : Nat) : String :=
  let t : Nat := (20 * sum.natAbs + n) / (2 * n)
  (if sum < 0 then "-" else "") ++ toString (t / 10) ++ "." ++ toString (t % 10)

/-! ## The aggregator (`aggregateResults`) -/

/-- One element of the JSON `results` array: a raw text value (open polls) or
a `(label, count)` object (all other poll types). -/
inductive ResEntry where
  | text (s : String)
  | tally (label : String) (count : Nat)
deriving DecidableEq, Repr

/-- The JSON payload returned by `aggregateResults`; `writeIns` and `average`
are present only for the poll types that produce them. -/
structure AggregateResult where
  total : Nat
  results : List ResEntry
  writeIns : Option (List String) := none
  average : Option String := none
deriving DecidableEq, Repr

/-- The body of `aggregateResults` after the poll lookup, branching on
`poll.type` exactly as the source does (`open`, `multi`, `mc-writein`, then
the shared mc/likert tally with an extra average for `likert`). -/
def aggregateBranches (ptype : String) (options : List String) (rows : List String) :
    AggregateResult :=
  if ptype == "open" then
    { total := rows.length, results := (rows.reverse).map ResEntry.text }
  else if ptype == "multi" then
    let counts := rows.foldl multiStep (initCounts options)
    { total := rows.length,
      results := (jsEntries counts).map (fun e => ResEntry.tally e.1 e.2) }
  else if ptype == "mc-writein" then
    let step := fun (acc : JsObj × List String) (v : String) =>
      if options.contains v then (objIncr acc.1 v, acc.2)
      else (objIncr acc.1 "Other", acc.2 ++ [v])
    let cw := rows.foldl step (objSet (initCounts options) "Other" 0, [])
    { total := rows.length,
      results := (jsEntries cw.1).map (fun e => ResEntry.tally e.1 e.2),
      writeIns := some cw.2.reverse }
  else
    let counts := rows.foldl objIncr (initCounts options)
    let results := (jsEntries counts).map (fun e => ResEntry.tally e.1 e.2)
    if ptype == "likert" then
      let sn := rows.foldl (fun (sn : Int × Nat) v =>
        match parseIntJS v with
        | some k => (sn.1 + k, sn.2 + 1)
        | none => sn) ((0 : Int), (0 : Nat))
      { total := rows.length, results := results,
        average := some (if sn.2 > 0 then toFixed1 sn.1 sn.2 else "0.0") }
    else
      { total := rows.length, results := results }

/-- `aggregateResults(pollId)` over the current store.  An unknown id yields
the empty aggregate; an `Object.prototype` member read as the poll has
`undefined` `type` and `options`, so it falls through to the mc/likert branch
with `(poll.options || []) = []`. -/
def aggregateResults (s : VoteStore) (pollId : String) : AggregateResult :=
  let rows := getVotes s pollId
  match pollsGet pollId with
  | .absent => { total := 0, results := [] }
  | .protoFn => aggregateBranches "" [] rows
  | .obj poll => aggregateBranches poll.type poll.options rows

/-! ## HTTP handlers -/

/-- The JSON `value` field of a vote submission: a plain string, or an array
of strings (the shape the voting page sends for multi-select).  Other JSON
shapes are not needed by the claims below. -/
inductive ReqVal where
  | vstr (s : String)
  | varr (xs : List String)
deriving DecidableEq, Repr

/-- Truthiness of `req.body.value`: a missing value and the empty string are
falsy; an array is truthy even when empty. -/
def truthyVal : Option ReqVal → Bool
  | none => false
  | some (.vstr s) => !(s == "")
  | some (.varr _) => true

def hexLower (n : Nat) : Char :=
  if n < 10 then Char.ofNat (48 + n) else Char.ofNat (87 + n)

/-- `JSON.stringify` escaping of one character inside a string literal. -/
def jsonEscapeChar (c : Char) : String :=
  if c == '"' then "\\\""
  else if c == '\\' then "\\\\"
  else if c.toNat == 8 then "\\b"
  else if c == '\t' then "\\t"
  else if c == '\n' then "\\n"
  else if c.toNat == 12 then "\\f"
  else if c == '\r' then "\\r"
  else if c.toNat < 0x20 then
    "\\u00" ++ String.singleton (hexLower (c.toNat / 16)) ++ String.singleton (hexLower (c.toNat % 16))
  else String.singleton c

def jsonStringifyStr (s : String) : String :=
  "\"" ++ String.join (s.data.map jsonEscapeChar) ++ "\""

/-- `typeof value === 'string' ? value : JSON.stringify(value)`. -/
def storedValue : ReqVal → String
  | .vstr s => s
  | .varr xs => "[" ++ String.intercalate "," (xs.map jsonStringifyStr) ++ "]"

/-- A broadcast payload `{ type, poll, results }` (the only event shapes the
server sends are this one, with `type: 'vote'`, and the tunnel notice). -/
structure VoteMsg where
  type : String
  poll : String
  results : AggregateResult
deriving DecidableEq, Repr

/-- An HTTP response: `res.json({ok:true})` or `res.status(st).json({error})`. -/
inductive ApiResponse where
  | ok
  | err (status : Nat) (msg : String)
deriving DecidableEq, Repr

/-- The observable outcome of one `POST /api/vote` request: the response, the
store afterwards, the events handed to `broadcast`, and how many times the
upsert statement was executed. -/
structure SubmitOutcome where
  resp : ApiResponse
  store : VoteStore
  broadcasts : List VoteMsg
  upsertAttempts : Nat
deriving DecidableEq, Repr

/-- The `POST /api/vote` handler.  `fail` abstracts the storage layer:
`some msg` means `upsertVote.run` throws with message `msg` (the SQLite
statement is atomic, so the store is unchanged); `none` means it succeeds.
A missing `poll`/`voterId` and the empty string are both falsy and take the
same 400 path, so both are modelled as `""`. -/
def apiVote (s : VoteStore) (now : Nat) (fail : Option String)
    (poll voterId : String) (value : Option ReqVal) : SubmitOutcome :=
  if poll == "" || !(truthyVal value) || voterId == "" then
    { resp := .err 400 "Missing poll, value, or voterId",
      store := s, broadcasts := [], upsertAttempts := 0 }
  else if !(pollTruthy poll) then
    { resp := .err 400 "Invalid poll ID",
      store := s, broadcasts := [], upsertAttempts := 0 }
  else
    match fail with
    | some msg =>
      { resp := .err 500 msg, store := s, broadcasts := [], upsertAttempts := 1 }
    | none =>
      let stored := match value with
        | some v => storedValue v
        | none => ""   -- unreachable: a missing value is falsy
      let s2 := upsertVote s poll voterId stored now
      { resp := .ok, store := s2,
        broadcasts := [{ type := "vote", poll := poll, results := aggregateResults s2 poll }],
        upsertAttempts := 1 }

/-- The `GET /api/reset` handler: wipe the store, then broadcast one
aggregate per catalog key.  (`Object.keys(POLLS)` enumerates the array-index
keys `1`..`6` in ascending order, which coincides with insertion order.) -/
def apiReset (s : VoteStore) : ApiResponse × VoteStore × List VoteMsg :=
  let s2 := clearAll s
  (ApiResponse.ok, s2,
   POLLS.map (fun e => { type := "vote", poll := e.1, results := aggregateResults s2 e.1 }))

/-! ## Broadcast hub -/

/-- A connected WebSocket client; `closed` makes `ws.send` throw. -/
structure Subscriber where
  id : String
  closed : Bool
deriving DecidableEq, Repr

/-- `ws.send(msg)`: throws when the connection is closed. -/
def wsSend (sub : Subscriber) (_msg : String) : Except String Unit :=
  if sub.closed then Except.error "WebSocket is not open" else Except.ok ()

/-- `try { ws.send(msg) } catch { /* ignore */ }`; reports whether the send
succeeded. -/
def trySend (sub : Subscriber) (msg : String) : Bool :=
  match wsSend sub msg with
  | .ok _ => true
  | .error _ => false

/-- The `broadcast` loop: iterate over all registered clients, attempting a
send to each inside its own try/catch.  The `Except` monad shows whether any
exception escapes to the caller of `broadcast`; the payload records, per
client, whether its delivery succeeded. -/
def broadcast (clients : List Subscriber) (msg : String) :
    Except String (List (String × Bool)) :=
  match clients with
  | [] => Except.ok []
  | ws :: rest => do
    let r := trySend ws msg
    let rs ← broadcast rest msg
    Except.ok ((ws.id, r) :: rs)

/-! ## Submission sequences and statement helpers -/

/-- The arguments of one `POST /api/vote` request (plus the clock value and
the storage-layer behaviour during it). -/
structure Submission where
  poll : String
  voterId : String
  value : Option ReqVal
  now : Nat
  fail : Option String

/-- Run a sequence of vote submissions against a store, threading the store. -/
def runSubmissions (s : VoteStore) (subs : List Submission) : VoteStore :=
  subs.foldl (fun st c => (apiVote st c.now c.fail c.poll c.voterId c.value).store) s

/-- The uniqueness key of a vote row. -/
def rowKey (r : VoteRow) : String × String := (r.poll_id, r.voter_id)

/-- The `UNIQUE(poll_id, voter_id)` constraint, as a predicate on a store. -/
def storeKeysNodup (s : VoteStore) : Prop := (s.map rowKey).Nodup

/-- The number of rows with the given key. -/
def keyCount (s : VoteStore) (pid vid : String) : Nat :=
  s.countP (fun r => r.poll_id == pid && r.voter_id == vid)

/-- Does the store hold a row with the given key? -/
def hasKey (s : VoteStore) (pid vid : String) : Bool :=
  s.any (fun r => r.poll_id == pid && r.voter_id == vid)

/-- The voters with a stored vote for a poll, in storage order. -/
def votersFor (s : VoteStore) (pid : String) : List String :=
  (s.filter (fun r => r.poll_id == pid)).map (fun r => r.voter_id)

/-- How many of the labels equal `o`. -/
def tallyFor (labels : List String) (o : String) : Nat :=
  labels.countP (fun v => v == o)

/-- The property keys contributed by one stored multi-select value: the
coerced elements of its parsed JSON array, or nothing when the value does not
parse as an array. -/
def rowElems (v : String) : List String :=
  match JSONparse v with
  | some (.jarr es) => es.map jsToStr
  | _ => []

/-- Is this results entry the tally of a declared option? -/
def declTally (options : List String) : ResEntry → Bool
  | .tally l _ => options.contains l
  | .text _ => false

/-- The expected tallies of the declared options, in declared order. -/
def declaredTallies (options labels : List String) : List ResEntry :=
  options.map (fun o => ResEntry.tally o (tallyFor labels o))

/-! ## Generic list lemmas -/

theorem list_map_congr {α β : Type} {f g : α → β} :
    ∀ {l : List α}, (∀ a ∈ l, f a = g a) → l.map f = l.map g
  | [], _ => rfl
  | a :: l, h => by
    simp only [List.map_cons]
    exact congrArg₂ _ (h a (List.mem_cons_self a l))
      (list_map_congr (fun b hb => h b (List.mem_cons_of_mem a hb)))

theorem filter_map_comm {α β : Type} (f : α → β) (p : β → Bool) :
    ∀ (l : List α), (l.map f).filter p = (l.filter (fun a => p (f a))).map f
  | [] => rfl
  | a :: l => by
    simp only [List.map_cons, List.filter_cons]
    by_cases h : p (f a) = true
    · simp [h, filter_map_comm f p l]
    · simp [Bool.eq_false_iff.2 h, filter_map_comm f p l]

theorem filter_none {α : Type} (p : α → Bool) :
    ∀ {l : List α}, (∀ a ∈ l, p a = false) → l.filter p = []
  | [], _ => rfl
  | a :: l, h => by
    simp only [List.filter_cons, h a (List.mem_cons_self a l)]
    exact filter_none p (fun b hb => h b (List.mem_cons_of_mem a hb))

theorem filter_all {α : Type} (p : α → Bool) :
    ∀ {l : List α}, (∀ a ∈ l, p a = true) → l.filter p = l
  | [], _ => rfl
  | a :: l, h => by
    simp only [List.filter_cons, h a (List.mem_cons_self a l)]
    simp [filter_all p (fun b hb => h b (List.mem_cons_of_mem a hb))]

/-! ## Association-list (JS object) lemmas -/

theorem lookup_cons {β : Type} (o k : String) (v : β) (l : List (String × β)) :
    ((k, v) :: l).lookup o = if o = k then some v else l.lookup o := by
  by_cases h : o = k
  · simp [List.lookup, beq_iff_eq.2 h, h]
  · simp [List.lookup, beq_eq_false_iff_ne.2 h, h]

theorem lookup_append (o : String) (l1 l2 : List (String × Nat)) :
    (l1 ++ l2).lookup o = ((l1.lookup o).orElse (fun _ => l2.lookup o)) := by
  induction l1 with
  | nil => simp [List.lookup, Option.orElse]
  | cons e l1 ih =>
    obtain ⟨k, v⟩ := e
    by_cases h : o = k
    · simp [lookup_cons, h, Option.orElse]
    · simp [lookup_cons, h, ih]

theorem objHas_append (o : String) (l1 l2 : List (String × Nat)) :
    objHas (l1 ++ l2) o = (objHas l1 o || objHas l2 o) := by
  unfold objHas
  rw [lookup_append]
  cases h : l1.lookup o <;> simp [Option.orElse]

theorem updFn_eq (k : String) (v : Nat) (e : String × Nat) :
    updFn k v e = if e.1 = k then (k, v) else e := by
  unfold updFn
  by_cases h : e.1 = k
  · simp [h]
  · simp [h]

theorem updFn_fst (k : String) (v : Nat) (e : String × Nat) :
    (updFn k v e).1 = e.1 := by
  rw [updFn_eq]
  by_cases h : e.1 = k
  · simp [h]
  · simp [h]

theorem filter_congr_mem {α : Type} (p q : α → Bool) :
    ∀ {l : List α}, (∀ a ∈ l, p a = q a) → l.filter p = l.filter q
  | [], _ => rfl
  | a :: l, h => by
    simp only [List.filter_cons, h a (List.mem_cons_self a l)]
    rw [filter_congr_mem p q (fun b hb => h b (List.mem_cons_of_mem a hb))]

theorem objHas_of_lookup {m : JsObj} {k : String} {w : Nat}
    (h : m.lookup k = some w) : objHas m k = true := by
  unfold objHas
  rw [h]
  rfl

theorem lookup_of_objHas_false {m : JsObj} {k : String}
    (h : objHas m k = false) : m.lookup k = none := by
  unfold objHas at h
  cases hl : m.lookup k
  · rfl
  · rw [hl] at h
    simp at h

theorem objGet_of_lookup {m : JsObj} {k : String} {w : Nat}
    (h : m.lookup k = some w) : objGet m k = w := by
  unfold objGet
  rw [h]

/-- Looking a key up after `counts[k] = v`: the value of `k` becomes `v` (when
present), other keys are untouched.  Stated for the map-update used by
`objSet` when the key exists. -/
theorem lookup_map_upd (m : JsObj) (k : String) (v : Nat) (o : String) :
    (m.map (updFn k v)).lookup o
      = (m.lookup o).map (fun w => if o = k then v else w) := by
  induction m with
  | nil => simp [List.lookup]
  | cons e m ih =>
    obtain ⟨k1, v1⟩ := e
    simp only [List.map_cons, updFn_eq]
    by_cases hek : k1 = k
    · subst hek
      by_cases hok : o = k1
      · subst hok
        simp [lookup_cons]
      · simp [lookup_cons, hok, ih]
    · rw [if_neg (by simpa using hek)]
      by_cases hoe : o = k1
      · subst hoe
        simp [lookup_cons, hek]
      · simp [lookup_cons, hoe, ih]


theorem filter_key_map_upd (P : String → Bool) (m : JsObj) (k : String) (v : Nat) :
    (m.map (updFn k v)).filter (fun e => P e.1)
      = (m.filter (fun e => P e.1)).map (updFn k v) := by
  rw [filter_map_comm]
  congr 1
  exact filter_congr_mem _ _ (fun a _ => by rw [updFn_fst])

/-- The running invariant of a counts object for a fixed declared-option
list: every declared option is present with the value prescribed by `g`, and
the declared entries, in declared order, are exactly the restriction of the
object to declared keys. -/
def cinv (options : List String) (m : JsObj) (g : String → Nat) : Prop :=
  (∀ o ∈ options, m.lookup o = some (g o)) ∧
  m.filter (fun e => options.contains e.1) = options.map (fun o => (o, g o))

theorem cinv_congr {options : List String} {m : JsObj} {g1 g2 : String → Nat}
    (h : ∀ o ∈ options, g1 o = g2 o) (hc : cinv options m g1) :
    cinv options m g2 := by
  constructor
  · intro o ho
    rw [hc.1 o ho, h o ho]
  · rw [hc.2]
    exact list_map_congr (fun o ho => by rw [h o ho])

theorem cinv_objIncr {options : List String} {m : JsObj} {g : String → Nat}
    (hc : cinv options m g) (v : String) :
    cinv options (objIncr m v) (fun o => if o = v then g o + 1 else g o) := by
  by_cases hv : v ∈ options
  · -- the incremented key is a declared option
    have hlv : m.lookup v = some (g v) := hc.1 v hv
    have hhas : objHas m v = true := objHas_of_lookup hlv
    have hget : objGet m v = g v := objGet_of_lookup hlv
    have hform : objIncr m v = m.map (updFn v (g v + 1)) := by
      unfold objIncr objSet
      rw [hget, if_pos hhas]
    rw [hform]
    constructor
    · intro o ho
      rw [lookup_map_upd, hc.1 o ho]
      by_cases hov : o = v
      · simp [hov]
      · simp [hov]
    · rw [filter_key_map_upd, hc.2, List.map_map]
      exact list_map_congr (fun o _ => by
        by_cases hov : o = v
        · subst hov
          simp [updFn_eq]
        · simp [updFn_eq, hov])
  · -- the incremented key is not declared: declared entries are untouched
    by_cases hhas : objHas m v = true
    · have hform : objIncr m v = m.map (updFn v (objGet m v + 1)) := by
        unfold objIncr objSet
        rw [if_pos hhas]
      rw [hform]
      constructor
      · intro o ho
        have hov : ¬o = v := fun he => hv (he ▸ ho)
        rw [lookup_map_upd, hc.1 o ho]
        simp [hov]
      · rw [filter_key_map_upd, hc.2, List.map_map]
        exact list_map_congr (fun o ho => by
          have hov : ¬o = v := fun he => hv (he ▸ ho)
          simp [Function.comp, updFn_eq, hov])
    · have hfalse : objHas m v = false := by
        cases hb : objHas m v
        · rfl
        · exact absurd hb hhas
      have hform : objIncr m v = m ++ [(v, objGet m v + 1)] := by
        unfold objIncr objSet
        rw [if_neg (by rw [hfalse]; simp)]
      rw [hform]
      constructor
      · intro o ho
        have hov : ¬o = v := fun he => hv (he ▸ ho)
        rw [lookup_append, hc.1 o ho]
        simp [Option.orElse, hov]
      · rw [List.filter_append, hc.2]
        have hnil : List.filter (fun e => options.contains e.1) [(v, objGet m v + 1)] = [] := by
          refine filter_none _ (fun a ha => ?_)
          simp only [List.mem_singleton] at ha
          subst ha
          simp [hv]
        rw [hnil, List.append_nil]
        exact list_map_congr (fun o ho => by
          have hov : ¬o = v := fun he => hv (he ▸ ho)
          simp [hov])

theorem cinv_foldl {options : List String} (labels : List String) :
    ∀ (m : JsObj) (g : String → Nat), cinv options m g →
      cinv options (labels.foldl objIncr m) (fun o => g o + tallyFor labels o) := by
  induction labels with
  | nil =>
    intro m g h
    exact cinv_congr (fun o _ => by simp [tallyFor]) h
  | cons v ls ih =>
    intro m g h
    rw [List.foldl_cons]
    refine cinv_congr (fun o _ => ?_) (ih (objIncr m v) _ (cinv_objIncr h v))
    unfold tallyFor
    rw [List.countP_cons]
    by_cases hov : o = v
    · subst hov
      simp only [beq_self_eq_true, if_pos rfl, if_true]
      omega
    · have : (v == o) = false := beq_eq_false_iff_ne.2 (fun he => hov he.symm)
      simp only [this, if_neg hov]
      simp

theorem foldl_objSet_zero (opts : List String) :
    ∀ (m : JsObj), (∀ o ∈ opts, objHas m o = false) → opts.Nodup →
      opts.foldl (fun m o => objSet m o 0) m = m ++ opts.map (fun o => (o, 0)) := by
  induction opts with
  | nil => intro m _ _; simp
  | cons o os ih =>
    intro m hfresh hnd
    rw [List.foldl_cons]
    have hstep : objSet m o 0 = m ++ [(o, 0)] := by
      unfold objSet
      rw [if_neg (by rw [hfresh o (List.mem_cons_self o os)]; simp)]
    rw [hstep]
    have hnd2 : os.Nodup := (List.nodup_cons.1 hnd).2
    have hnotmem : o ∉ os := (List.nodup_cons.1 hnd).1
    have hfresh2 : ∀ o2 ∈ os, objHas (m ++ [(o, 0)]) o2 = false := by
      intro o2 ho2
      rw [objHas_append]
      have h1 : objHas m o2 = false := hfresh o2 (List.mem_cons_of_mem o ho2)
      have h2 : objHas [(o, 0)] o2 = false := by
        have : ¬o2 = o := fun he => hnotmem (he ▸ ho2)
        unfold objHas
        rw [lookup_cons]
        simp [this]
      rw [h1, h2]
      rfl
    rw [ih (m ++ [(o, 0)]) hfresh2 hnd2, List.append_assoc]
    rfl

theorem initCounts_eq {options : List String} (hnd : options.Nodup) :
    initCounts options = options.map (fun o => (o, 0)) := by
  unfold initCounts
  rw [foldl_objSet_zero options [] (fun o _ => rfl) hnd]
  rfl

theorem lookup_map_pair {g : String → Nat} :
    ∀ {opts : List String} {o : String}, o ∈ opts →
      (opts.map (fun x => (x, g x))).lookup o = some (g o) := by
  intro opts
  induction opts with
  | nil => intro o h; cases h
  | cons x xs ih =>
    intro o h
    rw [List.map_cons, lookup_cons]
    by_cases hox : o = x
    · simp [hox]
    · rw [if_neg hox]
      have hmem : o ∈ xs := by
        rcases List.mem_cons.1 h with h1 | h1
        · exact absurd h1 hox
        · exact h1
      exact ih hmem

theorem cinv_init {options : List String} (hnd : options.Nodup) :
    cinv options (initCounts options) (fun _ => 0) := by
  rw [initCounts_eq hnd]
  constructor
  · intro o ho
    exact lookup_map_pair ho
  · refine filter_all _ (fun a ha => ?_)
    simp only [List.mem_map] at ha
    obtain ⟨x, hx, hax⟩ := ha
    subst hax
    simpa using hx

/-- The central counting lemma: folding the per-vote increment over any label
sequence, starting from the zero-initialised counts, leaves every declared
option present, with its tally, and the declared entries in declared order. -/
theorem counts_decl {options : List String} (labels : List String)
    (hnd : options.Nodup) :
    cinv options (labels.foldl objIncr (initCounts options))
      (fun o => tallyFor labels o) := by
  refine cinv_congr (fun o _ => ?_) (cinv_foldl labels (initCounts options) _ (cinv_init hnd))
  simp

/-! ## `Object.entries` ordering lemmas -/

theorem mem_insertByIdx {a e : String × Nat} :
    ∀ {l : List (String × Nat)}, a ∈ insertByIdx e l → a = e ∨ a ∈ l := by
  intro l
  induction l with
  | nil =>
    intro h
    simp only [insertByIdx, List.mem_singleton] at h
    exact Or.inl h
  | cons f fs ih =>
    intro h
    simp only [insertByIdx] at h
    by_cases hle : arrIdxVal e.1 ≤ arrIdxVal f.1
    · rw [if_pos hle] at h
      rcases List.mem_cons.1 h with h1 | h1
      · exact Or.inl h1
      · exact Or.inr h1
    · rw [if_neg hle] at h
      rcases List.mem_cons.1 h with h1 | h1
      · exact Or.inr (h1 ▸ List.mem_cons_self f fs)
      · rcases ih h1 with h2 | h2
        · exact Or.inl h2
        · exact Or.inr (List.mem_cons_of_mem f h2)

theorem mem_sortByIdx {a : String × Nat} :
    ∀ {l : List (String × Nat)}, a ∈ sortByIdx l → a ∈ l := by
  intro l
  induction l with
  | nil => intro h; cases h
  | cons e es ih =>
    intro h
    simp only [sortByIdx] at h
    rcases mem_insertByIdx h with h1 | h1
    · exact h1 ▸ List.mem_cons_self e es
    · exact List.mem_cons_of_mem e (ih h1)

theorem filter_of_filter_not_arr (P : String → Bool)
    (hP : ∀ k, P k = true → isArrayIdx k = false) :
    ∀ (m : JsObj),
      (m.filter (fun e => !isArrayIdx e.1)).filter (fun e => P e.1)
        = m.filter (fun e => P e.1) := by
  intro m
  induction m with
  | nil => rfl
  | cons e es ih =>
    simp only [List.filter_cons]
    cases ha : isArrayIdx e.1
    · simp only [ha, Bool.not_false, if_true, List.filter_cons, ih]
    · have hp : P e.1 = false := by
        cases hpb : P e.1
        · rfl
        · rw [hP e.1 hpb] at ha
          cases ha
      simp [ha, hp, ih]

/-- Filtering `Object.entries` output by a predicate that holds only for
non-array-index keys gives the same entries, in the same order, as filtering
the underlying object. -/
theorem filter_jsEntries (P : String → Bool) (m : JsObj)
    (hP : ∀ k, P k = true → isArrayIdx k = false) :
    (jsEntries m).filter (fun e => P e.1) = m.filter (fun e => P e.1) := by
  unfold jsEntries
  rw [List.filter_append]
  have hnil : (sortByIdx (m.filter (fun e => isArrayIdx e.1))).filter (fun e => P e.1) = [] := by
    refine filter_none _ (fun a ha => ?_)
    have hmem := mem_sortByIdx ha
    have harr : isArrayIdx a.1 = true := (List.mem_filter.1 hmem).2
    cases hpb : P a.1
    · rfl
    · rw [hP a.1 hpb] at harr
      cases harr
  rw [hnil, List.nil_append]
  exact filter_of_filter_not_arr P hP m

/-! ## Keys of the accumulated counts -/

theorem keysOf_map_upd (m : JsObj) (k : String) (v : Nat) :
    (m.map (updFn k v)).map Prod.fst = m.map Prod.fst := by
  rw [List.map_map]
  exact list_map_congr (fun e _ => updFn_fst k v e)

theorem mem_keys_objSet {x k : String} {v : Nat} {m : JsObj}
    (h : x ∈ (objSet m k v).map Prod.fst) :
    x ∈ m.map Prod.fst ∨ x = k := by
  unfold objSet at h
  by_cases hhas : objHas m k = true
  · rw [if_pos hhas, keysOf_map_upd] at h
    exact Or.inl h
  · rw [if_neg hhas, List.map_append, List.mem_append] at h
    rcases h with h1 | h1
    · exact Or.inl h1
    · simp only [List.map_cons, List.map_nil, List.mem_singleton] at h1
      exact Or.inr h1

theorem mem_keys_foldl_objIncr {x : String} :
    ∀ (labels : List String) (m : JsObj),
      x ∈ (labels.foldl objIncr m).map Prod.fst →
        x ∈ m.map Prod.fst ∨ x ∈ labels := by
  intro labels
  induction labels with
  | nil => intro m h; exact Or.inl h
  | cons v ls ih =>
    intro m h
    rw [List.foldl_cons] at h
    rcases ih (objIncr m v) h with h1 | h1
    · rcases mem_keys_objSet h1 with h2 | h2
      · exact Or.inl h2
      · exact Or.inr (h2 ▸ List.mem_cons_self v ls)
    · exact Or.inr (List.mem_cons_of_mem v h1)

/-! ## Results-level characterisation for mc/likert counting -/

theorem filter_map_tally (options : List String) (l : List (String × Nat)) :
    ((l.map (fun e => ResEntry.tally e.1 e.2)).filter (declTally options))
      = (l.filter (fun e => options.contains e.1)).map (fun e => ResEntry.tally e.1 e.2) := by
  rw [filter_map_comm]
  rfl

/-- In a simple-count aggregation, the declared options appear among the
`Object.entries` output exactly once each, in declared order, carrying their
tallies. -/
theorem mcLikert_results_decl (options labels : List String)
    (hnd : options.Nodup) (hai : ∀ o ∈ options, isArrayIdx o = false) :
    ((jsEntries (labels.foldl objIncr (initCounts options))).map
        (fun e => ResEntry.tally e.1 e.2)).filter (declTally options)
      = declaredTallies options labels := by
  rw [filter_map_tally]
  have hP : ∀ k, options.contains k = true → isArrayIdx k = false :=
    fun k hk => hai k (by simpa using hk)
  rw [filter_jsEntries (fun k => options.contains k) _ hP]
  rw [(counts_decl labels hnd).2]
  unfold declaredTallies
  rw [List.map_map]
  rfl

/-! ## Branch-unfolding equations for the aggregator -/

theorem aggregateBranches_open_eq (options rows : List String) :
    aggregateBranches "open" options rows
      = { total := rows.length, results := rows.reverse.map ResEntry.text } := rfl

theorem aggregateBranches_multi_eq (options rows : List String) :
    aggregateBranches "multi" options rows
      = { total := rows.length,
          results := (jsEntries (rows.foldl multiStep (initCounts options))).map
            (fun e => ResEntry.tally e.1 e.2) } := rfl

theorem aggregateBranches_writein_eq (options rows : List String) :
    aggregateBranches "mc-writein" options rows
      = { total := rows.length,
          results := (jsEntries (rows.foldl
              (fun (acc : JsObj × List String) (v : String) =>
                if options.contains v then (objIncr acc.1 v, acc.2)
                else (objIncr acc.1 "Other", acc.2 ++ [v]))
              (objSet (initCounts options) "Other" 0, [])).1).map
            (fun e => ResEntry.tally e.1 e.2),
          writeIns := some (rows.foldl
              (fun (acc : JsObj × List String) (v : String) =>
                if options.contains v then (objIncr acc.1 v, acc.2)
                else (objIncr acc.1 "Other", acc.2 ++ [v]))
              (objSet (initCounts options) "Other" 0, [])).2.reverse } := rfl

theorem aggregateBranches_mc_eq (options rows : List String) :
    aggregateBranches "mc" options rows
      = { total := rows.length,
          results := (jsEntries (rows.foldl objIncr (initCounts options))).map
            (fun e => ResEntry.tally e.1 e.2) } := rfl

theorem aggregateBranches_likert_eq (options rows : List String) :
    aggregateBranches "likert" options rows
      = { total := rows.length,
          results := (jsEntries (rows.foldl objIncr (initCounts options))).map
            (fun e => ResEntry.tally e.1 e.2),
          average := some (
            let sn := rows.foldl (fun (sn : Int × Nat) v =>
              match parseIntJS v with
              | some k => (sn.1 + k, sn.2 + 1)
              | none => sn) ((0 : Int), (0 : Nat))
            if sn.2 > 0 then toFixed1 sn.1 sn.2 else "0.0") } := rfl

theorem aggregateBranches_total (ptype : String) (options rows : List String) :
    (aggregateBranches ptype options rows).total = rows.length := by
  unfold aggregateBranches
  repeat' split
  all_goals rfl

/-! ## Catalog lookup case analysis -/

theorem POLLS_lookup_cases {pid : String} {p : Poll} (h : POLLS.lookup pid = some p) :
    (pid = "1" ∧ p = poll1) ∨ (pid = "2" ∧ p = poll2) ∨ (pid = "3" ∧ p = poll3) ∨
    (pid = "4" ∧ p = poll4) ∨ (pid = "5" ∧ p = poll5) ∨ (pid = "6" ∧ p = poll6) := by
  unfold POLLS at h
  simp only [lookup_cons] at h
  by_cases h1 : pid = "1"
  · rw [if_pos h1] at h
    exact Or.inl ⟨h1, (Option.some_injective _ h).symm⟩
  rw [if_neg h1] at h
  by_cases h2 : pid = "2"
  · rw [if_pos h2] at h
    exact Or.inr (Or.inl ⟨h2, (Option.some_injective _ h).symm⟩)
  rw [if_neg h2] at h
  by_cases h3 : pid = "3"
  · rw [if_pos h3] at h
    exact Or.inr (Or.inr (Or.inl ⟨h3, (Option.some_injective _ h).symm⟩))
  rw [if_neg h3] at h
  by_cases h4 : pid = "4"
  · rw [if_pos h4] at h
    exact Or.inr (Or.inr (Or.inr (Or.inl ⟨h4, (Option.some_injective _ h).symm⟩)))
  rw [if_neg h4] at h
  by_cases h5 : pid = "5"
  · rw [if_pos h5] at h
    exact Or.inr (Or.inr (Or.inr (Or.inr (Or.inl ⟨h5, (Option.some_injective _ h).symm⟩))))
  rw [if_neg h5] at h
  by_cases h6 : pid = "6"
  · rw [if_pos h6] at h
    exact Or.inr (Or.inr (Or.inr (Or.inr (Or.inr ⟨h6, (Option.some_injective _ h).symm⟩))))
  rw [if_neg h6] at h
  simp [List.lookup] at h

theorem pollsGet_of_lookup {pid : String} {p : Poll} (h : POLLS.lookup pid = some p) :
    pollsGet pid = .obj p := by
  unfold pollsGet
  rw [h]

/-! ## Vote-store lemmas -/

theorem updRow_eq (pid vid v : String) (now : Nat) (r : VoteRow) :
    updRow pid vid v now r
      = if rowKey r = (pid, vid) then { r with value := v, created_at := now } else r := by
  unfold updRow rowKey
  by_cases h : r.poll_id = pid ∧ r.voter_id = vid
  · rw [if_pos (by simp [h.1, h.2]), if_pos (by simp [h.1, h.2, Prod.ext_iff])]
  · rw [if_neg ?hc, if_neg ?hp]
    case hc =>
      simp only [Bool.and_eq_true, beq_iff_eq]
      exact h
    case hp =>
      simp only [Prod.mk.injEq]
      exact h

theorem updRow_rowKey (pid vid v : String) (now : Nat) (r : VoteRow) :
    rowKey (updRow pid vid v now r) = rowKey r := by
  rw [updRow_eq]
  by_cases h : rowKey r = (pid, vid)
  · rw [if_pos h]
    unfold rowKey at h ⊢
    simp only [Prod.mk.injEq] at h
    simp [h.1, h.2]
  · rw [if_neg h]

theorem updRow_poll_id (pid vid v : String) (now : Nat) (r : VoteRow) :
    (updRow pid vid v now r).poll_id = r.poll_id := by
  have h := updRow_rowKey pid vid v now r
  unfold rowKey at h
  exact (Prod.mk.injEq _ _ _ _ ▸ h).1

theorem updRow_voter_id (pid vid v : String) (now : Nat) (r : VoteRow) :
    (updRow pid vid v now r).voter_id = r.voter_id := by
  have h := updRow_rowKey pid vid v now r
  unfold rowKey at h
  exact (Prod.mk.injEq _ _ _ _ ▸ h).2

theorem upsert_of_hasKey {s : VoteStore} {pid vid : String}
    (h : hasKey s pid vid = true) (v : String) (t : Nat) :
    upsertVote s pid vid v t = s.map (updRow pid vid v t) := by
  unfold hasKey at h
  unfold upsertVote
  rw [if_pos h]

theorem upsert_of_not_hasKey {s : VoteStore} {pid vid : String}
    (h : hasKey s pid vid = false) (v : String) (t : Nat) :
    upsertVote s pid vid v t
      = s ++ [{ poll_id := pid, voter_id := vid, value := v, created_at := t }] := by
  unfold hasKey at h
  unfold upsertVote
  rw [if_neg (by rw [h]; simp)]

theorem keys_upsert_of_hasKey {s : VoteStore} {pid vid : String}
    (h : hasKey s pid vid = true) (v : String) (t : Nat) :
    (upsertVote s pid vid v t).map rowKey = s.map rowKey := by
  rw [upsert_of_hasKey h, List.map_map]
  exact list_map_congr (fun r _ => updRow_rowKey pid vid v t r)

theorem not_hasKey_iff {s : VoteStore} {pid vid : String} :
    hasKey s pid vid = false ↔ (pid, vid) ∉ s.map rowKey := by
  unfold hasKey
  rw [List.any_eq_false]
  constructor
  · intro h hmem
    obtain ⟨r, hr, hk⟩ := List.mem_map.1 hmem
    refine h r hr ?_
    unfold rowKey at hk
    simp only [Prod.mk.injEq] at hk
    simp [hk.1, hk.2]
  · intro h r hr hp
    refine h (List.mem_map.2 ⟨r, hr, ?_⟩)
    simp only [Bool.and_eq_true, beq_iff_eq] at hp
    unfold rowKey
    simp [hp.1, hp.2]

theorem storeKeysNodup_upsert {s : VoteStore} (h : storeKeysNodup s)
    (pid vid v : String) (t : Nat) :
    storeKeysNodup (upsertVote s pid vid v t) := by
  unfold storeKeysNodup at *
  cases hk : hasKey s pid vid
  · rw [upsert_of_not_hasKey hk, List.map_append, List.nodup_append]
    refine ⟨h, List.nodup_singleton _, ?_⟩
    intro a ha hb
    simp only [List.map_cons, List.map_nil, List.mem_singleton] at hb
    subst hb
    exact (not_hasKey_iff.1 hk) ha
  · rw [keys_upsert_of_hasKey hk]
    exact h

theorem keyCount_zero_of_not_mem {s : VoteStore} {pid vid : String}
    (h : (pid, vid) ∉ s.map rowKey) : keyCount s pid vid = 0 := by
  unfold keyCount
  rw [List.countP_eq_zero]
  intro r hr hp
  refine h (List.mem_map.2 ⟨r, hr, ?_⟩)
  simp only [Bool.and_eq_true, beq_iff_eq] at hp
  unfold rowKey
  rw [hp.1, hp.2]

theorem keyCount_le_one_of_nodup : ∀ {s : VoteStore}, storeKeysNodup s →
    ∀ pid vid, keyCount s pid vid ≤ 1
  | [], _, pid, vid => by simp [keyCount]
  | r :: rs, h, pid, vid => by
    have h2 : (rowKey r ∉ rs.map rowKey) ∧ (rs.map rowKey).Nodup := by
      unfold storeKeysNodup at h
      rw [List.map_cons, List.nodup_cons] at h
      exact h
    unfold keyCount
    rw [List.countP_cons]
    by_cases hp : (r.poll_id == pid && r.voter_id == vid) = true
    · have hkey : rowKey r = (pid, vid) := by
        simp only [Bool.and_eq_true, beq_iff_eq] at hp
        unfold rowKey
        rw [hp.1, hp.2]
      have hzero : keyCount rs pid vid = 0 :=
        keyCount_zero_of_not_mem (hkey ▸ h2.1)
      unfold keyCount at hzero
      rw [hzero, hp]
      simp
    · have hle := keyCount_le_one_of_nodup h2.2 pid vid
      unfold keyCount at hle
      have hp0 : (r.poll_id == pid && r.voter_id == vid) = false := by
        cases hb : (r.poll_id == pid && r.voter_id == vid)
        · rfl
        · exact absurd hb hp
      rw [hp0]
      simpa using hle

theorem apiVote_store_cases (s : VoteStore) (now : Nat) (fail : Option String)
    (poll vid : String) (val : Option ReqVal) :
    (apiVote s now fail poll vid val).store = s ∨
    ∃ v, (apiVote s now fail poll vid val).store = upsertVote s poll vid v now := by
  unfold apiVote
  by_cases c1 : (poll == "" || !truthyVal val || vid == "") = true
  · rw [if_pos c1]
    exact Or.inl rfl
  · rw [if_neg c1]
    by_cases c2 : (!pollTruthy poll) = true
    · rw [if_pos c2]
      exact Or.inl rfl
    · rw [if_neg c2]
      cases fail with
      | some msg => exact Or.inl rfl
      | none => exact Or.inr ⟨_, rfl⟩

theorem storeKeysNodup_runSubmissions (subs : List Submission) :
    ∀ {s : VoteStore}, storeKeysNodup s → storeKeysNodup (runSubmissions s subs) := by
  induction subs with
  | nil => intro s h; exact h
  | cons c cs ih =>
    intro s h
    unfold runSubmissions at *
    rw [List.foldl_cons]
    refine ih ?_
    rcases apiVote_store_cases s c.now c.fail c.poll c.voterId c.value with hc | ⟨v, hc⟩
    · rw [hc]; exact h
    · rw [hc]; exact storeKeysNodup_upsert h c.poll c.voterId v c.now

/-! ## Aggregate totals and store updates -/

theorem aggregateResults_eq_branches {s : VoteStore} {pid : String} {p : Poll}
    (h : POLLS.lookup pid = some p) :
    aggregateResults s pid = aggregateBranches p.type p.options (getVotes s pid) := by
  unfold aggregateResults
  rw [pollsGet_of_lookup h]

theorem aggregateResults_total (s : VoteStore) (pid : String) :
    (aggregateResults s pid).total
      = if pollsGet pid = .absent then 0 else (getVotes s pid).length := by
  unfold aggregateResults
  cases hg : pollsGet pid
  case obj p => simp [aggregateBranches_total]
  case protoFn => simp [aggregateBranches_total]
  case absent => simp

theorem length_insertByVoter (r : VoteRow) :
    ∀ (l : List VoteRow), (insertByVoter r l).length = l.length + 1
  | [] => rfl
  | f :: fs => by
    unfold insertByVoter
    by_cases h : voterLeB r f = true
    · rw [if_pos h]
      rfl
    · rw [if_neg h]
      simp only [List.length_cons, length_insertByVoter r fs]

theorem length_sortByVoter :
    ∀ (l : List VoteRow), (sortByVoter l).length = l.length
  | [] => rfl
  | r :: rs => by
    unfold sortByVoter
    rw [length_insertByVoter, length_sortByVoter rs]
    rfl

theorem mem_insertByVoter {a r : VoteRow} :
    ∀ {l : List VoteRow}, a ∈ insertByVoter r l → a = r ∨ a ∈ l := by
  intro l
  induction l with
  | nil =>
    intro h
    simp only [insertByVoter, List.mem_singleton] at h
    exact Or.inl h
  | cons f fs ih =>
    intro h
    simp only [insertByVoter] at h
    by_cases hle : voterLeB r f = true
    · rw [if_pos hle] at h
      rcases List.mem_cons.1 h with h1 | h1
      · exact Or.inl h1
      · exact Or.inr h1
    · rw [if_neg hle] at h
      rcases List.mem_cons.1 h with h1 | h1
      · exact Or.inr (h1 ▸ List.mem_cons_self f fs)
      · rcases ih h1 with h2 | h2
        · exact Or.inl h2
        · exact Or.inr (List.mem_cons_of_mem f h2)

theorem mem_sortByVoter {a : VoteRow} :
    ∀ {l : List VoteRow}, a ∈ sortByVoter l → a ∈ l := by
  intro l
  induction l with
  | nil => intro h; cases h
  | cons r rs ih =>
    intro h
    simp only [sortByVoter] at h
    rcases mem_insertByVoter h with h1 | h1
    · exact h1 ▸ List.mem_cons_self r rs
    · exact List.mem_cons_of_mem r (ih h1)

/-- The index order depends only on voter ids, so a row map that keeps every
voter id (like the conflict update) commutes with the insertion. -/
theorem insertByVoter_map {f : VoteRow → VoteRow}
    (hf : ∀ r, (f r).voter_id = r.voter_id) (r : VoteRow) :
    ∀ (l : List VoteRow), insertByVoter (f r) (l.map f) = (insertByVoter r l).map f
  | [] => rfl
  | x :: xs => by
    rw [List.map_cons]
    unfold insertByVoter
    have hle : voterLeB (f r) (f x) = voterLeB r x := by
      unfold voterLeB
      rw [hf r, hf x]
    rw [hle]
    by_cases h : voterLeB r x = true
    · rw [if_pos h, if_pos h, List.map_cons, List.map_cons]
    · rw [if_neg h, if_neg h, List.map_cons, insertByVoter_map hf r xs]

theorem sortByVoter_map {f : VoteRow → VoteRow}
    (hf : ∀ r, (f r).voter_id = r.voter_id) :
    ∀ (l : List VoteRow), sortByVoter (l.map f) = (sortByVoter l).map f
  | [] => rfl
  | r :: rs => by
    rw [List.map_cons]
    unfold sortByVoter
    rw [sortByVoter_map hf rs, insertByVoter_map hf r]

theorem length_getVotes_map_updRow (s : VoteStore) (pid vid v : String) (t : Nat)
    (qid : String) :
    (getVotes (s.map (updRow pid vid v t)) qid).length = (getVotes s qid).length := by
  unfold getVotes
  simp only [List.length_map, length_sortByVoter]
  rw [filter_map_comm, List.length_map]
  congr 1
  exact filter_congr_mem _ _ (fun r _ => by simp [updRow_poll_id])

theorem aggregate_total_upsert_of_hasKey {s : VoteStore} {pid vid : String}
    (h : hasKey s pid vid = true) (v : String) (t : Nat) (qid : String) :
    (aggregateResults (upsertVote s pid vid v t) qid).total
      = (aggregateResults s qid).total := by
  rw [aggregateResults_total, aggregateResults_total, upsert_of_hasKey h,
      length_getVotes_map_updRow]

/-- A resubmission (`hasKey`) replaces the voter's stored value in place: the
rows the query returns keep their (voter-id-sorted) positions, with only the
matching voter's value rewritten. -/
theorem getVotes_upsert_of_hasKey {s : VoteStore} {pid vid : String}
    (h : hasKey s pid vid = true) (v : String) (t : Nat) :
    getVotes (upsertVote s pid vid v t) pid
      = (sortByVoter (s.filter (fun r => r.poll_id == pid))).map
          (fun r => if r.voter_id == vid then v else r.value) := by
  rw [upsert_of_hasKey h]
  unfold getVotes
  rw [filter_map_comm]
  rw [filter_congr_mem (fun a => (updRow pid vid v t a).poll_id == pid)
        (fun r => r.poll_id == pid) (fun r _ => by simp [updRow_poll_id])]
  rw [sortByVoter_map (fun r => updRow_voter_id pid vid v t r), List.map_map]
  refine list_map_congr (fun r hr => ?_)
  have hpidr : r.poll_id = pid := by
    have hm := (List.mem_filter.1 (mem_sortByVoter hr)).2
    simpa using hm
  simp only [Function.comp]
  rw [updRow_eq]
  by_cases hv : r.voter_id = vid
  · rw [if_pos (by unfold rowKey; rw [hpidr, hv]), if_pos (by simp [hv])]
  · rw [if_neg (by unfold rowKey; simp [Prod.ext_iff, hv]),
        if_neg (by simp [hv])]

/-! ## Likert average characterisation -/

theorem likert_fold_filterMap (rows : List String) :
    rows.foldl (fun (sn : Int × Nat) v =>
        match parseIntJS v with
        | some k => (sn.1 + k, sn.2 + 1)
        | none => sn) ((0 : Int), (0 : Nat))
      = ((rows.filterMap parseIntJS).sum, (rows.filterMap parseIntJS).length) := by
  suffices h : ∀ (rows : List String) (sn : Int × Nat),
      rows.foldl (fun (sn : Int × Nat) v =>
        match parseIntJS v with
        | some k => (sn.1 + k, sn.2 + 1)
        | none => sn) sn
      = (sn.1 + (rows.filterMap parseIntJS).sum, sn.2 + (rows.filterMap parseIntJS).length) by
    rw [h rows ((0 : Int), (0 : Nat))]
    simp
  intro rows
  induction rows with
  | nil => intro sn; simp
  | cons v vs ih =>
    intro sn
    rw [List.foldl_cons, List.filterMap_cons]
    cases hp : parseIntJS v
    · simp only [hp]
      exact ih sn
    · simp only [hp]
      rw [ih]
      simp only [List.sum_cons, List.length_cons, Prod.mk.injEq]
      constructor
      · ring
      · omega

/-! ## Multi-select counting characterisation -/

/-- All property keys contributed by the stored multi-select values, in
iteration order. -/
def multiLabels (rows : List String) : List String :=
  (rows.map rowElems).flatten

theorem multiStep_eq_rowElems (m : JsObj) (v : String) :
    multiStep m v = (rowElems v).foldl objIncr m := by
  unfold multiStep rowElems
  cases h : JSONparse v with
  | none => rfl
  | some j =>
    cases j with
    | jnull => rfl
    | jbool b => rfl
    | jnum lex => rfl
    | jstr s2 => rfl
    | jarr es => rw [List.foldl_map]
    | jobj fs => rfl

theorem foldl_multiStep_eq (rows : List String) :
    ∀ (m : JsObj), rows.foldl multiStep m = (multiLabels rows).foldl objIncr m := by
  induction rows with
  | nil => intro m; rfl
  | cons v vs ih =>
    intro m
    rw [List.foldl_cons, ih, multiStep_eq_rowElems]
    unfold multiLabels
    rw [List.map_cons, List.flatten_cons, List.foldl_append]

/-! ## Write-in branch characterisation -/

theorem countP_congr_mem {α : Type} (p q : α → Bool) {l : List α}
    (h : ∀ a ∈ l, p a = q a) : l.countP p = l.countP q := by
  rw [List.countP_eq_length_filter, List.countP_eq_length_filter,
      filter_congr_mem p q h]

theorem contains_true_iff {l : List String} {a : String} :
    l.contains a = true ↔ a ∈ l := by
  simp

theorem contains_false_iff {l : List String} {a : String} :
    l.contains a = false ↔ a ∉ l := by
  constructor
  · intro h hm
    have hc : l.contains a = true := by simpa using hm
    rw [h] at hc
    cases hc
  · intro h
    cases hb : l.contains a
    · rfl
    · exact absurd (by simpa using hb) h

theorem jsEntries_of_no_arrIdx {m : JsObj}
    (h : ∀ e ∈ m, isArrayIdx e.1 = false) : jsEntries m = m := by
  unfold jsEntries
  rw [filter_none _ (fun a ha => h a ha),
      filter_all _ (fun a ha => by rw [h a ha]; rfl)]
  rfl

theorem counts_full_of_labels_sub {options : List String} (labels : List String)
    (hnd : options.Nodup) (hsub : ∀ l ∈ labels, l ∈ options) :
    labels.foldl objIncr (initCounts options)
      = options.map (fun o => (o, tallyFor labels o)) := by
  have hc := counts_decl labels hnd
  have hkeys : ∀ e ∈ labels.foldl objIncr (initCounts options),
      options.contains e.1 = true := by
    intro e he
    have hmem : e.1 ∈ (labels.foldl objIncr (initCounts options)).map Prod.fst :=
      List.mem_map_of_mem Prod.fst he
    rcases mem_keys_foldl_objIncr labels _ hmem with h1 | h1
    · rw [initCounts_eq hnd, List.map_map] at h1
      have : e.1 ∈ options := by simpa using h1
      simpa using this
    · have := hsub e.1 h1
      simpa using this
  calc labels.foldl objIncr (initCounts options)
      = (labels.foldl objIncr (initCounts options)).filter
          (fun e => options.contains e.1) := (filter_all _ hkeys).symm
    _ = options.map (fun o => (o, tallyFor labels o)) := hc.2

theorem writein_fold_split (options rows : List String) :
    ∀ (m : JsObj) (w : List String),
      rows.foldl (fun (acc : JsObj × List String) (v : String) =>
          if options.contains v then (objIncr acc.1 v, acc.2)
          else (objIncr acc.1 "Other", acc.2 ++ [v])) (m, w)
        = ((rows.map (fun v => if options.contains v then v else "Other")).foldl objIncr m,
           w ++ rows.filter (fun v => !options.contains v)) := by
  induction rows with
  | nil => intro m w; simp
  | cons v vs ih =>
    intro m w
    rw [List.foldl_cons, List.map_cons, List.foldl_cons, List.filter_cons]
    by_cases hv : options.contains v = true
    · rw [if_pos hv, if_pos hv, ih]
      rw [if_neg (by rw [hv]; simp)]
    · have hv0 : options.contains v = false := by
        cases hb : options.contains v
        · rfl
        · exact absurd hb hv
      rw [if_neg (by rw [hv0]; simp), if_neg (by rw [hv0]; simp), ih]
      rw [if_pos (by rw [hv0]; rfl), List.append_assoc]
      rfl

theorem initCounts_append_other (options : List String) :
    objSet (initCounts options) "Other" 0 = initCounts (options ++ ["Other"]) := by
  unfold initCounts
  rw [List.foldl_append]
  rfl

theorem tally_classified_decl {options : List String} (hno : "Other" ∉ options)
    {o : String} (ho : o ∈ options) (rows : List String) :
    tallyFor (rows.map (fun v => if options.contains v then v else "Other")) o
      = tallyFor rows o := by
  unfold tallyFor
  rw [List.countP_map]
  refine countP_congr_mem _ _ (fun v _ => ?_)
  simp only [Function.comp]
  by_cases hv : options.contains v = true
  · rw [if_pos hv]
  · have hv0 : options.contains v = false := by
      cases hb : options.contains v
      · rfl
      · exact absurd hb hv
    rw [if_neg (by rw [hv0]; simp)]
    have hoo : ¬("Other" = o) := fun he => hno (he ▸ ho)
    have hvno : ¬(v = o) := by
      intro he
      subst he
      exact (contains_false_iff.1 hv0) ho
    simp [hoo, hvno]

theorem tally_classified_other {options : List String} (hno : "Other" ∉ options)
    (rows : List String) :
    tallyFor (rows.map (fun v => if options.contains v then v else "Other")) "Other"
      = rows.countP (fun v => !options.contains v) := by
  unfold tallyFor
  rw [List.countP_map]
  refine countP_congr_mem _ _ (fun v _ => ?_)
  simp only [Function.comp]
  by_cases hv : options.contains v = true
  · rw [if_pos hv]
    have hvno : ¬(v = "Other") := by
      intro he
      exact hno (he ▸ contains_true_iff.1 hv)
    have hd : decide (v ∈ options) = true := by simpa using hv
    simp [hvno, hd]
  · have hv0 : options.contains v = false := by
      cases hb : options.contains v
      · rfl
      · exact absurd hb hv
    rw [if_neg (by rw [hv0]; simp)]
    have hd : decide (v ∈ options) = false := by
      simpa using contains_false_iff.1 hv0
    simp [hd]

/-- Full characterisation of the `mc-writein` aggregate (for a catalog-shaped
option list: distinct labels, no declared `Other`, no array-index label). -/
theorem writein_characterization (options rows : List String)
    (hnd : options.Nodup) (hno : "Other" ∉ options)
    (hai : ∀ o ∈ options, isArrayIdx o = false) :
    aggregateBranches "mc-writein" options rows
      = { total := rows.length,
          results := declaredTallies options rows
                      ++ [ResEntry.tally "Other" (rows.countP (fun v => !options.contains v))],
          writeIns := some ((rows.filter (fun v => !options.contains v)).reverse) } := by
  have hndK : (options ++ ["Other"]).Nodup := by
    rw [List.nodup_append]
    refine ⟨hnd, List.nodup_singleton _, ?_⟩
    intro a ha hb
    simp only [List.mem_singleton] at hb
    exact hno (hb ▸ ha)
  have hsub : ∀ l ∈ rows.map (fun v => if options.contains v then v else "Other"),
      l ∈ options ++ ["Other"] := by
    intro l hl
    obtain ⟨v, _, hv⟩ := List.mem_map.1 hl
    by_cases hc : options.contains v = true
    · rw [if_pos hc] at hv
      subst hv
      exact List.mem_append_left _ (by simpa using hc)
    · rw [if_neg hc] at hv
      subst hv
      exact List.mem_append_right _ (List.mem_singleton.2 rfl)
  rw [aggregateBranches_writein_eq, writein_fold_split, initCounts_append_other,
      counts_full_of_labels_sub _ hndK hsub]
  have hfull : (options ++ ["Other"]).map (fun o =>
      (o, tallyFor (rows.map (fun v => if options.contains v then v else "Other")) o))
      = options.map (fun o => (o, tallyFor rows o))
        ++ [("Other", rows.countP (fun v => !options.contains v))] := by
    rw [List.map_append]
    congr 1
    · exact list_map_congr (fun o ho => by rw [tally_classified_decl hno ho])
    · simp only [List.map_cons, List.map_nil]
      rw [tally_classified_other hno]
  rw [hfull]
  have hnoidx : ∀ e ∈ options.map (fun o => (o, tallyFor rows o))
      ++ [("Other", rows.countP (fun v => !options.contains v))],
      isArrayIdx e.1 = false := by
    intro e he
    rcases List.mem_append.1 he with h1 | h1
    · obtain ⟨o, ho, hoe⟩ := List.mem_map.1 h1
      subst hoe
      exact hai o ho
    · simp only [List.mem_singleton] at h1
      subst h1
      show isArrayIdx "Other" = false
      decide
  rw [jsEntries_of_no_arrIdx hnoidx]
  simp only [List.map_append, List.map_cons, List.map_nil, List.map_map]
  rfl

/-! ## Distinct voters -/

theorem votersFor_nodup {s : VoteStore} (h : storeKeysNodup s) (pid : String) :
    (votersFor s pid).Nodup := by
  unfold votersFor
  unfold storeKeysNodup at h
  have hsubl : ((s.filter (fun r => r.poll_id == pid)).map rowKey).Sublist
      (s.map rowKey) :=
    List.Sublist.map rowKey (List.filter_sublist s)
  have hsub : ((s.filter (fun r => r.poll_id == pid)).map rowKey).Nodup :=
    List.Nodup.sublist hsubl h
  have hkeys : (s.filter (fun r => r.poll_id == pid)).map rowKey
      = ((s.filter (fun r => r.poll_id == pid)).map (fun r => r.voter_id)).map
          (fun v => (pid, v)) := by
    rw [List.map_map]
    refine list_map_congr (fun r hr => ?_)
    have hp : r.poll_id = pid := by
      have hm := (List.mem_filter.1 hr).2
      simpa using hm
    unfold rowKey
    rw [hp]
    rfl
  rw [hkeys] at hsub
  exact hsub.of_map _

theorem length_getVotes_eq_votersFor (s : VoteStore) (pid : String) :
    (getVotes s pid).length = (votersFor s pid).length := by
  unfold getVotes votersFor
  rw [List.length_map, List.length_map, length_sortByVoter]

/-! ## Claim theorems -/

/-- C1: over any sequence of `submitVote` calls starting from an empty store,
the store never holds more than one row per `(pollId, voterId)` pair; a
resubmission for an existing key rewrites the stored rows in place (value and
timestamp of the matching row replaced, order and length preserved, so no new
row is created), and the `totalResponses` reported by the aggregator is
unchanged for every poll. -/
theorem claim_c1_upsert_idempotent :
    (∀ (subs : List Submission) (pid vid : String),
        keyCount (runSubmissions [] subs) pid vid ≤ 1)
    ∧ (∀ (s : VoteStore) (pid vid v : String) (t : Nat),
        hasKey s pid vid = true →
          upsertVote s pid vid v t = s.map (updRow pid vid v t)
          ∧ (upsertVote s pid vid v t).length = s.length
          ∧ (∀ r ∈ upsertVote s pid vid v t,
              rowKey r = (pid, vid) → r.value = v ∧ r.created_at = t)
          ∧ (∀ qid, (aggregateResults (upsertVote s pid vid v t) qid).total
              = (aggregateResults s qid).total)) := by
  constructor
  · intro subs pid vid
    refine keyCount_le_one_of_nodup
      (storeKeysNodup_runSubmissions subs ?_) pid vid
    unfold storeKeysNodup
    simp
  · intro s pid vid v t h
    refine ⟨upsert_of_hasKey h v t, ?_, ?_, fun qid => aggregate_total_upsert_of_hasKey h v t qid⟩
    · rw [upsert_of_hasKey h v t, List.length_map]
    · intro r hr hk
      rw [upsert_of_hasKey h v t] at hr
      obtain ⟨r0, _, hre⟩ := List.mem_map.1 hr
      subst hre
      rw [updRow_eq] at hk ⊢
      by_cases h0 : rowKey r0 = (pid, vid)
      · rw [if_pos h0]
        exact ⟨rfl, rfl⟩
      · rw [if_neg h0] at hk
        exact absurd hk h0

/-- Witness for C1 at a concrete run: the same voter submits twice to poll 1;
at most one row remains, and a direct resubmission over a one-row store keeps
the length and the reported total. -/
theorem claim_c1_witness :
    keyCount (runSubmissions []
        [{ poll := "1", voterId := "v", value := some (.vstr "x"), now := 1, fail := none },
         { poll := "1", voterId := "v", value := some (.vstr "y"), now := 2, fail := none }])
      "1" "v" ≤ 1
    ∧ hasKey [{ poll_id := "1", voter_id := "v", value := "x", created_at := 1 }] "1" "v" = true
    ∧ (upsertVote [{ poll_id := "1", voter_id := "v", value := "x", created_at := 1 }]
        "1" "v" "y" 2).length = 1
    ∧ (aggregateResults (upsertVote
          [{ poll_id := "1", voter_id := "v", value := "x", created_at := 1 }] "1" "v" "y" 2)
        "1").total
      = (aggregateResults
          [{ poll_id := "1", voter_id := "v", value := "x", created_at := 1 }] "1").total := by
  refine ⟨claim_c1_upsert_idempotent.1 _ "1" "v", by decide, ?_, ?_⟩
  · exact (claim_c1_upsert_idempotent.2 _ "1" "v" "y" 2 (by decide)).2.1
  · exact (claim_c1_upsert_idempotent.2 _ "1" "v" "y" 2 (by decide)).2.2.2 "1"

/-- C2: for every mc or likert poll of the catalog and every store, the
results list carries every declared option with its tally (zero when nobody
picked it), and the declared options appear in declared order (their
subsequence of the results equals the declared-order tally list); with zero
votes a single-choice poll with options `A`, `B` yields exactly
`[(A,0),(B,0)]` and `totalResponses = 0`. -/
theorem claim_c2_mc_likert_results :
    (∀ (pid : String) (p : Poll), POLLS.lookup pid = some p →
        (p.type = "mc" ∨ p.type = "likert") →
        ∀ (s : VoteStore),
          ((aggregateResults s pid).results.filter (declTally p.options))
            = declaredTallies p.options (getVotes s pid))
    ∧ aggregateBranches "mc" ["A", "B"] []
        = { total := 0, results := [ResEntry.tally "A" 0, ResEntry.tally "B" 0] } := by
  constructor
  · intro pid p hlook htype s
    rw [aggregateResults_eq_branches hlook]
    rcases POLLS_lookup_cases hlook with ⟨hp, he⟩ | ⟨hp, he⟩ | ⟨hp, he⟩ | ⟨hp, he⟩ |
      ⟨hp, he⟩ | ⟨hp, he⟩
    all_goals subst he
    · rw [show poll1.type = "mc" from rfl, aggregateBranches_mc_eq]
      exact mcLikert_results_decl poll1.options _ (by decide) (by decide)
    · exact absurd htype (by decide)
    · rw [show poll3.type = "likert" from rfl, aggregateBranches_likert_eq]
      exact mcLikert_results_decl poll3.options _ (by decide) (by decide)
    · exact absurd htype (by decide)
    · exact absurd htype (by decide)
    · rw [show poll6.type = "mc" from rfl, aggregateBranches_mc_eq]
      exact mcLikert_results_decl poll6.options _ (by decide) (by decide)
  · decide

/-- A one-row store used by several witnesses below. -/
def demoStore1 : VoteStore :=
  [{ poll_id := "1", voter_id := "v", value := "Yes, regularly", created_at := 0 }]

/-- Witness for C2 at poll 1 with one stored vote. -/
theorem claim_c2_witness :
    POLLS.lookup "1" = some poll1
    ∧ (poll1.type = "mc" ∨ poll1.type = "likert")
    ∧ ((aggregateResults demoStore1 "1").results.filter (declTally poll1.options))
        = declaredTallies poll1.options (getVotes demoStore1 "1") :=
  ⟨by decide, Or.inl rfl,
   claim_c2_mc_likert_results.1 "1" poll1 (by decide) (Or.inl rfl) _⟩

theorem multiLabels_append (a b : List String) :
    multiLabels (a ++ b) = multiLabels a ++ multiLabels b := by
  unfold multiLabels
  rw [List.map_append, List.flatten_append]

/-- C3 counterexample: one voter stores the multi-select value `["X","X"]`.
Only one voter has a selection containing `X` (totalResponses is 1), yet the
aggregate reports a count of 2 for `X`: the loop increments once per array
element, not once per voter whose selection set contains the option. -/
theorem claim_c3_counterexample :
    aggregateBranches "multi" ["X", "Y"] ["[\"X\",\"X\"]"]
      = { total := 1, results := [ResEntry.tally "X" 2, ResEntry.tally "Y" 0] } := by
  decide

/-- C3 (amended): for the multi-select poll, `totalResponses` is the number
of stored rows, i.e. the number of distinct voters (given the UNIQUE key);
each declared option's count is the number of occurrences of that option
across all voters' parsed selections (a label duplicated inside one stored
array counts once per occurrence); a stored value that does not parse as a
JSON array contributes no labels and changes no counts, without aborting
aggregation; the spec's example `["X","Y"]` and `["Y"]` gives X:1, Y:2,
total 2. -/
theorem claim_c3_multi_aggregate :
    (∀ (s : VoteStore), storeKeysNodup s →
        (aggregateResults s "4").total = (votersFor s "4").length
        ∧ (votersFor s "4").Nodup)
    ∧ (∀ (s : VoteStore),
        ((aggregateResults s "4").results.filter (declTally poll4.options))
          = declaredTallies poll4.options (multiLabels (getVotes s "4")))
    ∧ (∀ (rows1 rows2 : List String) (v : String), rowElems v = [] →
        (aggregateBranches "multi" poll4.options (rows1 ++ v :: rows2)).results
          = (aggregateBranches "multi" poll4.options (rows1 ++ rows2)).results
        ∧ (aggregateBranches "multi" poll4.options (rows1 ++ v :: rows2)).total
          = (aggregateBranches "multi" poll4.options (rows1 ++ rows2)).total + 1)
    ∧ aggregateBranches "multi" ["X", "Y"] ["[\"X\",\"Y\"]", "[\"Y\"]"]
        = { total := 2, results := [ResEntry.tally "X" 1, ResEntry.tally "Y" 2] } := by
  refine ⟨?_, ?_, ?_, by decide⟩
  · intro s hnodup
    constructor
    · rw [aggregateResults_total, if_neg (by decide)]
      exact length_getVotes_eq_votersFor s "4"
    · exact votersFor_nodup hnodup "4"
  · intro s
    have hlook : POLLS.lookup "4" = some poll4 := by decide
    rw [aggregateResults_eq_branches hlook, show poll4.type = "multi" from rfl,
        aggregateBranches_multi_eq, foldl_multiStep_eq]
    exact mcLikert_results_decl poll4.options _ (by decide) (by decide)
  · intro rows1 rows2 v hv
    have hml : multiLabels (rows1 ++ v :: rows2) = multiLabels (rows1 ++ rows2) := by
      rw [multiLabels_append, multiLabels_append]
      unfold multiLabels
      rw [List.map_cons, List.flatten_cons, hv, List.nil_append]
    constructor
    · rw [aggregateBranches_multi_eq, aggregateBranches_multi_eq,
          foldl_multiStep_eq, foldl_multiStep_eq, hml]
    · rw [aggregateBranches_total, aggregateBranches_total]
      simp only [List.length_append, List.length_cons]
      omega

/-- A two-row store for poll 4, used by the C3 witness. -/
def demoStore4 : VoteStore :=
  [{ poll_id := "4", voter_id := "a", value := "[\"ChatGPT\",\"Claude\"]", created_at := 0 },
   { poll_id := "4", voter_id := "b", value := "[\"Claude\"]", created_at := 1 }]

/-- Witness for C3 (amended) on a concrete store: totals and the silent skip
of an unparseable stored value. -/
theorem claim_c3_witness :
    storeKeysNodup demoStore4
    ∧ (aggregateResults demoStore4 "4").total = (votersFor demoStore4 "4").length
    ∧ rowElems "nonsense" = []
    ∧ (aggregateBranches "multi" poll4.options (["[\"ChatGPT\"]"] ++ "nonsense" :: [])).results
        = (aggregateBranches "multi" poll4.options (["[\"ChatGPT\"]"] ++ [])).results := by
  refine ⟨?hn, ?_, by decide, ?_⟩
  case hn =>
    unfold storeKeysNodup
    decide
  · exact (claim_c3_multi_aggregate.1 demoStore4 (by unfold storeKeysNodup; decide)).1
  · exact (claim_c3_multi_aggregate.2.2.1 ["[\"ChatGPT\"]"] [] "nonsense" (by decide)).1

/-- C4: a rating-scale aggregate reports `average` as the mean of the
`parseInt`-parseable stored values, formatted to one decimal digit via
`toFixed1`, or `"0.0"` when no value parses; an unparseable value is excluded
from both the numerator and the denominator; the spec example `"1","3","5"`
gives `"3.0"`. -/
theorem claim_c4_likert_average :
    (∀ (options rows : List String),
        (aggregateBranches "likert" options rows).average
          = some (if (rows.filterMap parseIntJS).length > 0
                  then toFixed1 (rows.filterMap parseIntJS).sum
                        (rows.filterMap parseIntJS).length
                  else "0.0"))
    ∧ (∀ (options rows1 rows2 : List String) (v : String), parseIntJS v = none →
        (aggregateBranches "likert" options (rows1 ++ v :: rows2)).average
          = (aggregateBranches "likert" options (rows1 ++ rows2)).average)
    ∧ (aggregateBranches "likert" poll3.options ["1", "3", "5"]).average = some "3.0"
    ∧ (∀ (options rows : List String), rows.filterMap parseIntJS = [] →
        (aggregateBranches "likert" options rows).average = some "0.0") := by
  refine ⟨?_, ?_, by decide, ?_⟩
  · intro options rows
    rw [aggregateBranches_likert_eq]
    simp only [likert_fold_filterMap]
  · intro options rows1 rows2 v hv
    have h1 : (rows1 ++ v :: rows2).filterMap parseIntJS
        = (rows1 ++ rows2).filterMap parseIntJS := by
      rw [List.filterMap_append, List.filterMap_append, List.filterMap_cons, hv]
    rw [aggregateBranches_likert_eq, aggregateBranches_likert_eq]
    simp only [likert_fold_filterMap, h1]
  · intro options rows h
    rw [aggregateBranches_likert_eq]
    simp only [likert_fold_filterMap, h]
    rfl

/-- Witness for C4: the unparseable value `"abc"` between `"1"` and `"5"`
leaves the average exactly as without it. -/
theorem claim_c4_witness :
    parseIntJS "abc" = none
    ∧ (aggregateBranches "likert" poll3.options (["1"] ++ "abc" :: ["5"])).average
        = (aggregateBranches "likert" poll3.options (["1"] ++ ["5"])).average :=
  ⟨by decide, claim_c4_likert_average.2.1 poll3.options ["1"] ["5"] "abc" (by decide)⟩

/-- C5: for a single-choice-with-writein poll (distinct options, none named
`Other`, none an array-index string — true of any catalog-shaped poll), a
stored value increments the matching declared option's tally exactly when it
equals a declared option, and otherwise lands in the synthetic `Other` bucket
and is appended to the write-in list, reported newest first; the results
cover every declared option, in declared order, plus `Other`, with counts
defaulting to zero. -/
theorem claim_c5_writein :
    ∀ (options rows : List String), options.Nodup → "Other" ∉ options →
      (∀ o ∈ options, isArrayIdx o = false) →
      aggregateBranches "mc-writein" options rows
        = { total := rows.length,
            results := declaredTallies options rows
                        ++ [ResEntry.tally "Other"
                              (rows.countP (fun v => !options.contains v))],
            writeIns := some ((rows.filter (fun v => !options.contains v)).reverse) } :=
  fun options rows hnd hno hai => writein_characterization options rows hnd hno hai

/-- Witness for C5: declared `Red`/`Blue`, votes `Green` then `Red`; `Green`
goes to `Other` and the write-in list, `Red` to its own tally. -/
theorem claim_c5_witness :
    (["Red", "Blue"] : List String).Nodup
    ∧ ("Other" ∉ (["Red", "Blue"] : List String))
    ∧ aggregateBranches "mc-writein" ["Red", "Blue"] ["Green", "Red"]
        = { total := 2,
            results := [ResEntry.tally "Red" 1, ResEntry.tally "Blue" 0,
                        ResEntry.tally "Other" 1],
            writeIns := some ["Green"] } := by
  refine ⟨by decide, by decide, ?_⟩
  rw [claim_c5_writein ["Red", "Blue"] ["Green", "Red"] (by decide) (by decide) (by decide)]
  decide

/-- A two-row store for the open poll 2: voter `zzz` answered first (rowid 1,
timestamp 0), voter `aaa` answered later (rowid 2, timestamp 1). -/
def cexStore6 : VoteStore :=
  [{ poll_id := "2", voter_id := "zzz", value := "first answer", created_at := 0 },
   { poll_id := "2", voter_id := "aaa", value := "second answer", created_at := 1 }]

/-- C6 counterexample: the SELECT is served through the
`UNIQUE(poll_id, voter_id)` auto-index, so the rows arrive sorted by voter id
(`aaa` before `zzz`), and reversing them puts the OLDER submission first:
`["first answer", "second answer"]`.  The claim requires the reverse of
storage (rowid) order — `["second answer", "first answer"]`, the most recent
submission first — which is not what the program returns. -/
theorem claim_c6_counterexample :
    (aggregateResults cexStore6 "2").results
      = [ResEntry.text "first answer", ResEntry.text "second answer"]
    ∧ ¬((aggregateResults cexStore6 "2").results
        = (((cexStore6.filter (fun r => r.poll_id == "2")).map
            (fun r => r.value)).reverse).map ResEntry.text) := by
  decide

/-- C6 (amended): a free-text poll reports `totalResponses` equal to the
number of stored rows, and results are the raw stored values in descending
voter-id order — the reverse of the ascending voter-id order in which
SQLite's `UNIQUE(poll_id, voter_id)` auto-index serves the query — which is
unrelated to submission recency; a resubmission still overwrites the voter's
stored value in place, so the returned rows keep their positions with only
the matching voter's value rewritten. -/
theorem claim_c6_open_results :
    (∀ (s : VoteStore) (pid : String) (p : Poll), POLLS.lookup pid = some p →
        p.type = "open" →
        (aggregateResults s pid).total = (getVotes s pid).length
        ∧ (aggregateResults s pid).results = ((getVotes s pid).reverse).map ResEntry.text)
    ∧ (∀ (s : VoteStore) (pid : String),
        getVotes s pid
          = (sortByVoter (s.filter (fun r => r.poll_id == pid))).map (fun r => r.value))
    ∧ (∀ (s : VoteStore) (pid vid v : String) (t : Nat), hasKey s pid vid = true →
        getVotes (upsertVote s pid vid v t) pid
          = (sortByVoter (s.filter (fun r => r.poll_id == pid))).map
              (fun r => if r.voter_id == vid then v else r.value)) := by
  refine ⟨?_, fun s pid => rfl, ?_⟩
  · intro s pid p hlook htype
    rw [aggregateResults_eq_branches hlook, htype, aggregateBranches_open_eq]
    exact ⟨rfl, rfl⟩
  · intro s pid vid v t h
    exact getVotes_upsert_of_hasKey h v t

/-- Witness for C6 (amended): the two stored answers of `cexStore6` come back
in descending voter-id order, and a resubmission by voter `zzz` rewrites that
voter's value in place. -/
theorem claim_c6_witness :
    POLLS.lookup "2" = some poll2
    ∧ poll2.type = "open"
    ∧ (aggregateResults cexStore6 "2").results
        = ((getVotes cexStore6 "2").reverse).map ResEntry.text
    ∧ hasKey cexStore6 "2" "zzz" = true
    ∧ getVotes (upsertVote cexStore6 "2" "zzz" "changed" 5) "2"
        = (sortByVoter (cexStore6.filter (fun r => r.poll_id == "2"))).map
            (fun r => if r.voter_id == "zzz" then "changed" else r.value) := by
  refine ⟨by decide, rfl, ?_, by decide, ?_⟩
  · exact (claim_c6_open_results.1 cexStore6 "2" poll2 (by decide) rfl).2
  · exact claim_c6_open_results.2.2 cexStore6 "2" "zzz" "changed" 5 (by decide)

/-- C7 counterexample: an empty-array `value` is an empty raw value, yet the
handler accepts it — JavaScript arrays are truthy even when empty — storing a
row (`"[]"`), broadcasting, and answering `ok` instead of a 400 rejection. -/
theorem claim_c7_counterexample :
    (apiVote [] 0 none "4" "v" (some (.varr []))).resp = ApiResponse.ok
    ∧ (apiVote [] 0 none "4" "v" (some (.varr []))).store
        = [{ poll_id := "4", voter_id := "v", value := "[]", created_at := 0 }]
    ∧ (apiVote [] 0 none "4" "v" (some (.varr []))).broadcasts.length = 1 := by
  decide

/-- C7 (amended): a submission whose `poll` or `voterId` is missing or empty,
whose `value` is missing or the empty string, or whose `poll` does not read
as truthy from the catalog (neither a catalog key nor an `Object.prototype`
member name) is rejected with a 400 error, leaving the store untouched,
publishing nothing, and never executing the upsert.  (An empty-array value is
truthy and accepted; a pollId naming an `Object.prototype` member, e.g.
`constructor`, is also accepted.) -/
theorem claim_c7_validation :
    ∀ (s : VoteStore) (now : Nat) (fail : Option String) (poll vid : String)
      (val : Option ReqVal),
      (poll = "" ∨ vid = "" ∨ val = none ∨ val = some (.vstr "")
        ∨ pollTruthy poll = false) →
      ∃ msg, (apiVote s now fail poll vid val).resp = ApiResponse.err 400 msg
        ∧ (apiVote s now fail poll vid val).store = s
        ∧ (apiVote s now fail poll vid val).broadcasts = []
        ∧ (apiVote s now fail poll vid val).upsertAttempts = 0 := by
  intro s now fail poll vid val h
  unfold apiVote
  by_cases c1 : (poll == "" || !truthyVal val || vid == "") = true
  · rw [if_pos c1]
    exact ⟨_, rfl, rfl, rfl, rfl⟩
  · rw [if_neg c1]
    have hPT : pollTruthy poll = false := by
      rcases h with h | h | h | h | h
      · exact absurd (by subst h; simp) c1
      · exact absurd (by subst h; simp) c1
      · exact absurd (by subst h; simp [truthyVal]) c1
      · exact absurd (by subst h; simp [truthyVal]) c1
      · exact h
    rw [if_pos (by rw [hPT]; rfl)]
    exact ⟨_, rfl, rfl, rfl, rfl⟩

/-- Witness for C7 (amended): an unknown poll id is rejected with 400, no
store change, no broadcast, no upsert attempt. -/
theorem claim_c7_witness :
    pollTruthy "zzz" = false
    ∧ ∃ msg, (apiVote [] 0 none "zzz" "v" (some (.vstr "x"))).resp
          = ApiResponse.err 400 msg
        ∧ (apiVote [] 0 none "zzz" "v" (some (.vstr "x"))).store = []
        ∧ (apiVote [] 0 none "zzz" "v" (some (.vstr "x"))).broadcasts = []
        ∧ (apiVote [] 0 none "zzz" "v" (some (.vstr "x"))).upsertAttempts = 0 :=
  ⟨by decide,
   claim_c7_validation [] 0 none "zzz" "v" (some (.vstr "x"))
     (Or.inr (Or.inr (Or.inr (Or.inr (by decide)))))⟩

/-- C8: when the storage layer throws during the upsert of an otherwise valid
submission, the handler answers a 500 error carrying the storage message, the
store is unchanged, nothing is broadcast, and the upsert is attempted exactly
once (no retry). -/
theorem claim_c8_storage_failure :
    ∀ (s : VoteStore) (now : Nat) (poll vid : String) (val : Option ReqVal)
      (msg : String),
      poll ≠ "" → truthyVal val = true → vid ≠ "" → pollTruthy poll = true →
      (apiVote s now (some msg) poll vid val).resp = ApiResponse.err 500 msg
      ∧ (apiVote s now (some msg) poll vid val).store = s
      ∧ (apiVote s now (some msg) poll vid val).broadcasts = []
      ∧ (apiVote s now (some msg) poll vid val).upsertAttempts = 1 := by
  intro s now poll vid val msg h1 h2 h3 h4
  unfold apiVote
  rw [if_neg (by simp [h1, h2, h3]), if_neg (by rw [h4]; simp)]
  exact ⟨rfl, rfl, rfl, rfl⟩

/-- Witness for C8: a valid submission to poll 1 with a failing store. -/
theorem claim_c8_witness :
    pollTruthy "1" = true
    ∧ (apiVote demoStore1 7 (some "disk full") "1" "w" (some (.vstr "No"))).resp
        = ApiResponse.err 500 "disk full"
    ∧ (apiVote demoStore1 7 (some "disk full") "1" "w" (some (.vstr "No"))).store
        = demoStore1
    ∧ (apiVote demoStore1 7 (some "disk full") "1" "w" (some (.vstr "No"))).broadcasts = []
    ∧ (apiVote demoStore1 7 (some "disk full") "1" "w" (some (.vstr "No"))).upsertAttempts
        = 1 := by
  have h := claim_c8_storage_failure demoStore1 7 "1" "w" (some (.vstr "No")) "disk full"
    (by decide) (by decide) (by decide) (by decide)
  exact ⟨by decide, h.1, h.2.1, h.2.2.1, h.2.2.2⟩

/-- C9 counterexample: resetting a store with one vote publishes six events —
one per poll — but every one of them carries the tag `vote`; no event of a
distinct `reset` type is ever published, although the claim requires
reset-type events. -/
theorem claim_c9_counterexample :
    ((apiReset demoStore1).2.2.map VoteMsg.type)
      = ["vote", "vote", "vote", "vote", "vote", "vote"]
    ∧ ((apiReset demoStore1).2.2.filter (fun m => m.type == "reset")) = [] := by
  decide

/-- C9 (amended): the administrative reset clears every vote for every poll
and then publishes one vote-update-type event per catalog poll (six events,
not one; the code reuses the `vote` tag rather than a distinct reset tag),
each carrying the aggregate of the emptied store: `totalResponses = 0` and
every declared option at count 0. -/
theorem claim_c9_reset :
    (∀ s : VoteStore,
        apiReset s
          = (ApiResponse.ok, [],
             POLLS.map (fun e =>
               { type := "vote", poll := e.1, results := aggregateResults [] e.1 })))
    ∧ (∀ (pid : String) (p : Poll), POLLS.lookup pid = some p →
        (aggregateResults [] pid).total = 0
        ∧ (aggregateResults [] pid).results
            = p.options.map (fun o => ResEntry.tally o 0))
    ∧ (POLLS.map Prod.fst).length = 6 := by
  refine ⟨fun s => rfl, ?_, rfl⟩
  intro pid p hlook
  rcases POLLS_lookup_cases hlook with ⟨hp, he⟩ | ⟨hp, he⟩ | ⟨hp, he⟩ | ⟨hp, he⟩ |
    ⟨hp, he⟩ | ⟨hp, he⟩
  all_goals subst hp
  all_goals subst he
  · exact ⟨by decide, by decide⟩
  · exact ⟨by decide, by decide⟩
  · exact ⟨by decide, by decide⟩
  · exact ⟨by decide, by decide⟩
  · exact ⟨by decide, by decide⟩
  · exact ⟨by decide, by decide⟩

/-- Witness for C9 (amended) at poll 1. -/
theorem claim_c9_witness :
    POLLS.lookup "1" = some poll1
    ∧ (aggregateResults [] "1").total = 0
    ∧ (aggregateResults [] "1").results = poll1.options.map (fun o => ResEntry.tally o 0) :=
  ⟨by decide,
   (claim_c9_reset.2.1 "1" poll1 (by decide)).1,
   (claim_c9_reset.2.1 "1" poll1 (by decide)).2⟩

/-- C10: `broadcast` attempts a delivery to every registered client, never
propagates an exception to its caller (the result is always `ok`), and each
client's delivery outcome depends only on that client's own connection state
— so one closed client cannot prevent delivery to the others. -/
theorem claim_c10_broadcast_isolation :
    ∀ (clients : List Subscriber) (msg : String),
      broadcast clients msg
        = Except.ok (clients.map (fun ws => (ws.id, !ws.closed))) := by
  intro clients msg
  induction clients with
  | nil => rfl
  | cons c cs ih =>
    unfold broadcast
    rw [ih]
    unfold trySend wsSend
    cases hc : c.closed <;> rw [List.map_cons, hc] <;> rfl
